import Mathlib

/-!
Verification development for the ZooMS-3D-Explorer sync tool
(`src/sync_parchment_data.py` and the legacy variant
`src/DOCUMENTATION/other_agent_ideas/sync_parchment_data_FIXED.py`).

The Python code is shallowly embedded: library calls (OpenCV decode,
pyzbar decode, Google Drive downloads/uploads, local file writes) are
parameters of an environment record; fallible library calls return
`Except`/`Option`.  Machine-level details that no claim depends on
(actual pixel contents, float rounding inside `int(h * ratio)`) are
modelled with natural-number arithmetic.
-/

namespace ZoomsSync

/-- Raw byte strings are modelled as lists of naturals. -/
abbrev Bytes := List Nat

/-- Python truthiness of an optional string (`if x:` on `item.get(...)`):
`None` and the empty string are falsy. -/
def truthy : Option String → Bool
  | none => false
  | some s => !(s == (""))

theorem truthy_some_iff (s : String) : truthy (some s) = true ↔ s ≠ "" := by
  simp [truthy]

/-- A pyzbar bounding rectangle (`qrs[0].rect`). -/
structure Rect where
  left : Nat
  top : Nat
  width : Nat
  height : Nat
deriving DecidableEq, Repr

/-- One decoded object as returned by `pyzbar.pyzbar.decode`:
the UTF-8 payload and its rectangle, in the decoder's result order. -/
structure QrRes where
  data : String
  rect : Rect
deriving DecidableEq, Repr

/-- Environment of image-library operations used by the two QR matcher
variants.  `Img` is the type of decoded OpenCV images.
`cvtGray` models `cv2.cvtColor(..., COLOR_BGR2GRAY)`, which raises an
OpenCV error when the source matrix is empty. -/
structure QrEnv (Img : Type) where
  imdecode : Bytes → Except String (Option Img)
  pyzDecode : Img → Except String (List QrRes)
  width : Img → Nat
  height : Img → Nat
  crop : Img → Nat → Nat → Img
  cvtGray : Img → Except String Img

/-- `detect_qr` of `sync_parchment_data.py` (lines 199-211): full-frame
scan, entire body inside `try`, so every exception is converted into
`(None, None)`. -/
def detect_qr {Img : Type} (env : QrEnv Img) (d : Bytes) :
    Option String × Option Rect :=
  match env.imdecode d with
  | Except.error _ => (none, none)
  | Except.ok none => (none, none)
  | Except.ok (some img) =>
    match env.pyzDecode img with
    | Except.error _ => (none, none)
    | Except.ok [] => (none, none)
    | Except.ok (q :: _) => (some q.data, some q.rect)

/-- `detect_qr` of `sync_parchment_data_FIXED.py` (lines 171-193): crops
the top-left 45% x 45% region (`int(height * 0.45)`, `int(width * 0.45)`,
modelled as `n * 45 / 100`), converts it to grayscale and decodes; there
is no `try`, so library exceptions propagate; it returns only the decoded
payload (or `None`), never a rectangle. -/
def detect_qr_fixed {Img : Type} (env : QrEnv Img) (d : Bytes) :
    Except String (Option String) :=
  match env.imdecode d with
  | Except.error e => Except.error e
  | Except.ok none => Except.ok none
  | Except.ok (some img) =>
    match env.cvtGray (env.crop img (env.height img * 45 / 100)
        (env.width img * 45 / 100)) with
    | Except.error e => Except.error e
    | Except.ok gray =>
      match env.pyzDecode gray with
      | Except.error e => Except.error e
      | Except.ok [] => Except.ok none
      | Except.ok (q :: _) => Except.ok (some q.data)

/-! ### Thumbnail generation (`generate_thumbnails`, lines 267-304)

The model records every `cv2.imwrite` call as a triple
(path, output width, output height); the float expression
`int(h * (300.0 / w))` is modelled as `h * 300 / w`. -/

/-- The value a Python function evaluates to: either a pair of optional
paths (`return t, q` / `return None, None`), or the bare `None` produced
by a plain `return` (which makes tuple-unpacking at the caller raise). -/
inductive PyRet where
  | pair : Option String → Option String → PyRet
  | bareNone : PyRet
deriving DecidableEq, Repr

/-- Directory prefix constants from the configuration section. -/
def thumbsPath (qrId suffix : String) : String :=
  ("assets/thumbnails/") ++ qrId ++ suffix

def imagesPath (qrId : String) : String :=
  ("assets/images/") ++ qrId ++ (".jpg")

/-- `generate_thumbnails(qr_id, image_data, rect)`.
`imdecodeDims` returns the image dimensions `(w, h)` or `none` for
undecodable bytes.  Output: the list of files written and the value the
function returns.  Faithful to the source: the
`return thumb_path, qr_path` statement sits inside `if rect:`, so when
`rect` is `None` control falls through to the trailing
`return None, None` even though the preview was written. -/
def generate_thumbnails (imdecodeDims : Bytes → Option (Nat × Nat))
    (qrId : String) (d : Bytes) (rect : Option Rect) :
    List (String × Nat × Nat) × PyRet :=
  match imdecodeDims d with
  | none => ([], PyRet.bareNone)
  | some (w, h) =>
    let thumbPath := thumbsPath qrId ("_thumb.jpg")
    let thumbDim : Nat × Nat := (300, h * 300 / w)
    match rect with
    | some r =>
      let padW := r.width / 5
      let padH := r.height / 5
      let y1 := r.top - padH
      let y2 := min h (r.top + r.height + padH)
      let x1 := r.left - padW
      let x2 := min w (r.left + r.width + padW)
      let qrPath := thumbsPath qrId ("_qr.jpg")
      ([(thumbPath, thumbDim.1, thumbDim.2), (qrPath, x2 - x1, y2 - y1)],
        PyRet.pair (some thumbPath) (some qrPath))
    | none =>
      ([(thumbPath, thumbDim.1, thumbDim.2)], PyRet.pair none none)

/-! ### The Mapping Store -/

/-- One `MappingEntry`: the dict stored under `mapping[qr_id]`.  All
fields are optional strings; `none` models an absent key
(`item.get(k) is None`). -/
structure Entry where
  filename : Option String := none
  drive_id : Option String := none
  source_zip : Option String := none
  timestamp : Option String := none
  local_path : Option String := none
  thumb_path : Option String := none
  qr_path : Option String := none
  creator : Option String := none
  camera : Option String := none
  location : Option String := none
  drive_thumb_id : Option String := none
  drive_qr_id : Option String := none
deriving DecidableEq, Repr

/-- The Mapping Store: a Python dict as an insertion-ordered association
list with unique keys. -/
abbrev Mapping := List (String × Entry)

/-- Python dict lookup `mapping.get(k)` / `mapping[k]`. -/
def dictGet : Mapping → String → Option Entry
  | [], _ => none
  | p :: m, k => if p.1 == k then some p.2 else dictGet m k

/-- Python dict assignment `mapping[k] = v`: replaces the (unique)
binding of `k` in place, otherwise appends at the end. -/
def dictSet : Mapping → String → Entry → Mapping
  | [], k, v => [(k, v)]
  | p :: m, k, v => if p.1 == k then (k, v) :: m else p :: dictSet m k v

theorem dictGet_dictSet_self (m : Mapping) (k : String) (v : Entry) :
    dictGet (dictSet m k v) k = some v := by
  induction m with
  | nil => simp [dictGet, dictSet]
  | cons p m ih =>
    by_cases hp : (p.1 == k) = true
    · simp [dictSet, dictGet, hp]
    · simp only [Bool.not_eq_true] at hp
      simp [dictSet, dictGet, hp, ih]

theorem dictGet_dictSet_ne (m : Mapping) (k k' : String) (v : Entry)
    (h : k' ≠ k) : dictGet (dictSet m k v) k' = dictGet m k' := by
  have hkk : (k == k') = false := by
    simp only [beq_eq_false_iff_ne, ne_eq]
    exact fun hh => h hh.symm
  induction m with
  | nil => simp [dictGet, dictSet, hkk]
  | cons p m ih =>
    by_cases hp : (p.1 == k) = true
    · have hpk : p.1 = k := by simpa using hp
      have hne : (p.1 == k') = false := by
        simp only [hpk, beq_eq_false_iff_ne, ne_eq]
        exact fun hh => h hh.symm
      simp [dictSet, dictGet, hp, hkk, hne]
    · simp only [Bool.not_eq_true] at hp
      simp [dictSet, dictGet, hp, ih]

theorem dictSet_keys_sub (m : Mapping) (k k' : String) (v : Entry)
    (h : k' ∈ (dictSet m k v).map (fun p => p.1)) :
    k' ∈ m.map (fun p => p.1) ∨ k' = k := by
  induction m with
  | nil => simpa [dictSet] using h
  | cons p m ih =>
    by_cases hp : (p.1 == k) = true
    · simp only [dictSet, hp, if_true, List.map_cons, List.mem_cons] at h
      rcases h with h | h
      · right; exact h
      · left; simp [h]
    · simp only [Bool.not_eq_true] at hp
      simp only [dictSet, hp, Bool.false_eq_true, if_false, List.map_cons,
        List.mem_cons] at h
      rcases h with h | h
      · left; simp [h]
      · rcases ih h with h' | h'
        · left; simp [h']
        · right; exact h'

theorem dictSet_nodup_keys (m : Mapping) (k : String) (v : Entry)
    (h : (m.map (fun p => p.1)).Nodup) :
    ((dictSet m k v).map (fun p => p.1)).Nodup := by
  induction m with
  | nil => simp [dictSet]
  | cons p m ih =>
    simp only [List.map_cons, List.nodup_cons] at h
    by_cases hp : (p.1 == k) = true
    · have hpk : p.1 = k := by simpa using hp
      simp only [dictSet, hp, if_true, List.map_cons, List.nodup_cons]
      exact ⟨by simpa [hpk] using h.1, h.2⟩
    · simp only [Bool.not_eq_true] at hp
      simp only [dictSet, hp, Bool.false_eq_true, if_false, List.map_cons,
        List.nodup_cons]
      refine ⟨fun hmem => ?_, ih h.2⟩
      rcases dictSet_keys_sub m k p.1 v hmem with h' | h'
      · exact h.1 h'
      · simp [h'] at hp

/-! ### The healing pass (step 3 of `main`, lines 522-581)

Each `MappingEntry` is healed in place.  The environment carries the
deterministic outcomes of the external operations:
* `fileBytes p` — `os.path.exists(p)` plus `open(p,'rb').read()`; `none`
  models a missing file or a read error (the surrounding `except`).
* `dq` — `detect_qr` on bytes (the wrapped, total variant).
* `thumbs` — `generate_thumbnails`; `none` models the bare-`None` return
  on undecodable bytes, which makes the caller's tuple unpacking raise
  (caught by the heal `except`, skipping the camera heal as well).
* `exif` — `extract_exif` (total, returns `("Unknown","Unknown")` on failure).
* `creatorById` / `creatorByZip` — the Drive owner lookups; `none`
  models a raised API error (caught), `some c` the resulting display
  name (the in-loop `zip_owners` cache is observationally the identity
  because the lookup is deterministic). -/
structure HealEnv where
  fileBytes : String → Option Bytes
  dq : Bytes → Option String × Option Rect
  thumbs : String → Bytes → Option Rect → Option (Option String × Option String)
  exif : Bytes → String × String
  creatorById : String → Option String
  creatorByZip : String → Option String

/-- The camera/location heal (lines 548-552), guarded by
`not item.get('camera') or item.get('camera') == 'Unknown'`.
Returns the updated entry and how many recomputations ran. -/
def healCam (env : HealEnv) (d : Bytes) (it : Entry) : Entry × Nat :=
  if !(truthy it.camera) || (it.camera == some ("Unknown")) then
    ({ it with camera := some (env.exif d).1, location := some (env.exif d).2 }, 1)
  else (it, 0)

/-- Lines 533-554: the thumbnail + EXIF heal for one entry.  The outer
guard is `not item.get('thumb_path') or not item.get('camera')`; note
that an entry with a populated `thumb_path` and `camera == 'Unknown'`
fails this outer guard and is not recomputed. -/
def healThumbCam (env : HealEnv) (qid : String) (it : Entry) : Entry × Nat :=
  match env.fileBytes (it.local_path.getD ("")) with
  | none => (it, 0)
  | some d =>
    if truthy it.thumb_path && truthy it.camera then (it, 0)
    else if truthy it.thumb_path then
      healCam env d it
    else
      match env.thumbs qid d (env.dq d).2 with
      | none => (it, 1)
      | some (t, q) =>
        let it1 : Entry := { it with thumb_path := t, qr_path := q }
        ((healCam env d it1).1, 1 + (healCam env d it1).2)

/-- The owner lookup in the creator heal (lines 558-571): via `drive_id`
when present, else via `source_zip`; with neither, the local `creator`
variable keeps its initial `"Unknown"`. -/
def healFetch (env : HealEnv) (it : Entry) : Option String :=
  if truthy it.drive_id then env.creatorById (it.drive_id.getD (""))
  else if truthy it.source_zip then env.creatorByZip (it.source_zip.getD (""))
  else some ("Unknown")

/-- Lines 556-577: the creator heal.  The fetched name is applied only
when it differs from `"Unknown"`. -/
def healCreator (env : HealEnv) (it : Entry) : Entry × Nat :=
  if !(truthy it.creator) || (it.creator == some ("Unknown")) then
    match healFetch env it with
    | none => (it, 1)
    | some c => if c == "Unknown" then (it, 1) else ({ it with creator := some c }, 1)
  else (it, 0)

/-- Healing of a single entry: thumbnail/EXIF heal then creator heal.
The second component counts how many recomputation steps ran. -/
def healEntry (env : HealEnv) (qid : String) (it : Entry) : Entry × Nat :=
  ((healCreator env (healThumbCam env qid it).1).1,
    (healThumbCam env qid it).2 + (healCreator env (healThumbCam env qid it).1).2)

/-- The whole healing pass: every stored entry healed in place. -/
def healPass (env : HealEnv) (m : Mapping) : Mapping :=
  m.map (fun p => (p.1, (healEntry env p.1 p.2).1))

/-- An entry whose descriptive fields are all present and none of them
is the `"Unknown"` sentinel. -/
def populated (it : Entry) : Bool :=
  truthy it.filename && truthy it.timestamp && truthy it.local_path &&
  truthy it.thumb_path && truthy it.qr_path &&
  truthy it.creator && !(it.creator == some ("Unknown")) &&
  truthy it.camera && !(it.camera == some ("Unknown")) &&
  truthy it.location && !(it.location == some ("Unknown"))

/-- Abbreviation for the in-place update performed by the camera/EXIF
heal: `item['camera'] = cam; item['location'] = loc`. -/
def withCamLoc (it : Entry) (c l : String) : Entry :=
  { it with camera := some c, location := some l }

/-- Abbreviation for the in-place update performed by the thumbnail
heal: `item['thumb_path'] = t_path; item['qr_path'] = q_path`. -/
def withThumbQr (it : Entry) (t q : Option String) : Entry :=
  { it with thumb_path := t, qr_path := q }

/-- Abbreviation for the creator update `item['creator'] = creator`. -/
def withCreator (it : Entry) (c : String) : Entry :=
  { it with creator := some c }

theorem withCamLoc_camera (it : Entry) (c l : String) :
    (withCamLoc it c l).camera = some c := rfl

theorem withCamLoc_thumb (it : Entry) (c l : String) :
    (withCamLoc it c l).thumb_path = it.thumb_path := rfl

theorem withThumbQr_thumb (it : Entry) (t q : Option String) :
    (withThumbQr it t q).thumb_path = t := rfl

theorem withThumbQr_camera (it : Entry) (t q : Option String) :
    (withThumbQr it t q).camera = it.camera := rfl

theorem withCreator_creator (it : Entry) (c : String) :
    (withCreator it c).creator = some c := rfl

theorem healCam_eq_pos (env : HealEnv) (d : Bytes) (it : Entry)
    (h : (!(truthy it.camera) || (it.camera == some ("Unknown"))) = true) :
    healCam env d it = (withCamLoc it (env.exif d).1 (env.exif d).2, 1) := by
  unfold healCam withCamLoc
  rw [if_pos h]

theorem healCam_eq_neg (env : HealEnv) (d : Bytes) (it : Entry)
    (h : (!(truthy it.camera) || (it.camera == some ("Unknown"))) = false) :
    healCam env d it = (it, 0) := by
  unfold healCam
  rw [if_neg (by simp [h])]

theorem withCamLoc_withCamLoc (it : Entry) (c l : String) :
    withCamLoc (withCamLoc it c l) c l = withCamLoc it c l := rfl

theorem healCam_fst_idem (env : HealEnv) (d : Bytes) (it : Entry) :
    (healCam env d (healCam env d it).1).1 = (healCam env d it).1 := by
  by_cases h : (!(truthy it.camera) || (it.camera == some ("Unknown"))) = true
  · rw [healCam_eq_pos env d it h]
    by_cases h2 : (!(truthy (some (env.exif d).1)) ||
        ((some (env.exif d).1 : Option String) == some ("Unknown"))) = true
    · rw [healCam_eq_pos env d (withCamLoc it (env.exif d).1 (env.exif d).2)
        (by rw [withCamLoc_camera]; exact h2)]
      exact congrArg Prod.fst (congrArg (fun z => (z, 1))
        (withCamLoc_withCamLoc it (env.exif d).1 (env.exif d).2))
    · rw [healCam_eq_neg env d (withCamLoc it (env.exif d).1 (env.exif d).2)
        (by rw [withCamLoc_camera]; simpa using h2)]
  · rw [healCam_eq_neg env d it (by simpa using h)]
    rw [healCam_eq_neg env d it (by simpa using h)]

theorem healCam_creator_update (env : HealEnv) (d : Bytes) (it : Entry)
    (x : Option String) :
    healCam env d { it with creator := x } =
      ({ (healCam env d it).1 with creator := x }, (healCam env d it).2) := by
  by_cases h : (!(truthy it.camera) || (it.camera == some ("Unknown"))) = true
  · rw [healCam_eq_pos env d it h,
      healCam_eq_pos env d { it with creator := x } h]
    rfl
  · rw [healCam_eq_neg env d it (by simpa using h),
      healCam_eq_neg env d { it with creator := x } (by simpa using h)]

theorem healThumbCam_eq_noFile (env : HealEnv) (qid : String) (it : Entry)
    (hfb : env.fileBytes (it.local_path.getD ("")) = none) :
    healThumbCam env qid it = (it, 0) := by
  unfold healThumbCam
  simp only [hfb]

theorem healThumbCam_eq_skip (env : HealEnv) (qid : String) (it : Entry)
    (d : Bytes) (hfb : env.fileBytes (it.local_path.getD ("")) = some d)
    (h : (truthy it.thumb_path && truthy it.camera) = true) :
    healThumbCam env qid it = (it, 0) := by
  unfold healThumbCam
  simp only [hfb]
  rw [if_pos h]

theorem healThumbCam_eq_camOnly (env : HealEnv) (qid : String) (it : Entry)
    (d : Bytes) (hfb : env.fileBytes (it.local_path.getD ("")) = some d)
    (h1 : (truthy it.thumb_path && truthy it.camera) = false)
    (h2 : truthy it.thumb_path = true) :
    healThumbCam env qid it = healCam env d it := by
  unfold healThumbCam
  simp only [hfb]
  rw [if_neg (by simp [h1]), if_pos h2]

theorem healThumbCam_eq_thumbFail (env : HealEnv) (qid : String) (it : Entry)
    (d : Bytes) (hfb : env.fileBytes (it.local_path.getD ("")) = some d)
    (h1 : (truthy it.thumb_path && truthy it.camera) = false)
    (h2 : truthy it.thumb_path = false)
    (hth : env.thumbs qid d (env.dq d).2 = none) :
    healThumbCam env qid it = (it, 1) := by
  unfold healThumbCam
  simp only [hfb]
  rw [if_neg (by simp [h1]), if_neg (by simp [h2])]
  simp only [hth]

theorem healThumbCam_eq_thumbOk (env : HealEnv) (qid : String) (it : Entry)
    (d : Bytes) (t q : Option String)
    (hfb : env.fileBytes (it.local_path.getD ("")) = some d)
    (h1 : (truthy it.thumb_path && truthy it.camera) = false)
    (h2 : truthy it.thumb_path = false)
    (hth : env.thumbs qid d (env.dq d).2 = some (t, q)) :
    healThumbCam env qid it =
      ((healCam env d (withThumbQr it t q)).1,
        1 + (healCam env d (withThumbQr it t q)).2) := by
  unfold healThumbCam withThumbQr
  simp only [hfb]
  rw [if_neg (by simp [h1]), if_neg (by simp [h2])]
  simp only [hth]

theorem withThumbQr_withThumbQr (it : Entry) (t q : Option String) :
    withThumbQr (withThumbQr it t q) t q = withThumbQr it t q := rfl

theorem withThumbQr_absorb (it : Entry) (t q : Option String) (c l : String) :
    withThumbQr (withCamLoc (withThumbQr it t q) c l) t q =
      withCamLoc (withThumbQr it t q) c l := rfl

theorem healThumbCam_idem (env : HealEnv) (qid : String) (it : Entry) :
    (healThumbCam env qid (healThumbCam env qid it).1).1 =
      (healThumbCam env qid it).1 := by
  cases hfb : env.fileBytes (it.local_path.getD ("")) with
  | none =>
    rw [healThumbCam_eq_noFile env qid it hfb,
      healThumbCam_eq_noFile env qid it hfb]
  | some d =>
    by_cases h1 : (truthy it.thumb_path && truthy it.camera) = true
    · rw [healThumbCam_eq_skip env qid it d hfb h1,
        healThumbCam_eq_skip env qid it d hfb h1]
    · replace h1 : (truthy it.thumb_path && truthy it.camera) = false := by
        simpa using h1
      by_cases h2 : truthy it.thumb_path = true
      · rw [healThumbCam_eq_camOnly env qid it d hfb h1 h2]
        have hcam : truthy it.camera = false := by
          revert h1; rw [h2]; cases truthy it.camera <;> simp
        rw [healCam_eq_pos env d it (by simp [hcam])]
        dsimp only
        by_cases h3 : truthy (some (env.exif d).1) = true
        · rw [healThumbCam_eq_skip env qid
            (withCamLoc it (env.exif d).1 (env.exif d).2) d hfb
            (by rw [withCamLoc_thumb, withCamLoc_camera, h2, h3]; rfl)]
        · replace h3 : truthy (some (env.exif d).1) = false := by simpa using h3
          rw [healThumbCam_eq_camOnly env qid
            (withCamLoc it (env.exif d).1 (env.exif d).2) d hfb
            (by rw [withCamLoc_camera, h3, Bool.and_false]) (by rw [withCamLoc_thumb, h2])]
          rw [healCam_eq_pos env d (withCamLoc it (env.exif d).1 (env.exif d).2)
            (by rw [withCamLoc_camera, h3]; rfl)]
          rw [withCamLoc_withCamLoc]
      · replace h2 : truthy it.thumb_path = false := by simpa using h2
        cases hth : env.thumbs qid d (env.dq d).2 with
        | none =>
          rw [healThumbCam_eq_thumbFail env qid it d hfb h1 h2 hth,
            healThumbCam_eq_thumbFail env qid it d hfb h1 h2 hth]
        | some tq =>
          obtain ⟨t, q⟩ := tq
          rw [healThumbCam_eq_thumbOk env qid it d t q hfb h1 h2 hth]
          dsimp only
          by_cases h4 :
              (!(truthy it.camera) || (it.camera == some ("Unknown"))) = true
          · rw [healCam_eq_pos env d (withThumbQr it t q)
              (by rw [withThumbQr_camera]; exact h4)]
            dsimp only
            by_cases h5 : truthy t = true
            · by_cases h6 : truthy (some (env.exif d).1) = true
              · rw [healThumbCam_eq_skip env qid
                  (withCamLoc (withThumbQr it t q) (env.exif d).1 (env.exif d).2)
                  d hfb
                  (by rw [withCamLoc_thumb, withThumbQr_thumb, withCamLoc_camera, h5, h6]; rfl)]
              · replace h6 : truthy (some (env.exif d).1) = false := by
                  simpa using h6
                rw [healThumbCam_eq_camOnly env qid
                  (withCamLoc (withThumbQr it t q) (env.exif d).1 (env.exif d).2)
                  d hfb (by rw [withCamLoc_camera, h6, Bool.and_false])
                  (by rw [withCamLoc_thumb, withThumbQr_thumb, h5])]
                rw [healCam_eq_pos env d
                  (withCamLoc (withThumbQr it t q) (env.exif d).1 (env.exif d).2)
                  (by rw [withCamLoc_camera, h6]; rfl)]
                rw [withCamLoc_withCamLoc]
            · replace h5 : truthy t = false := by simpa using h5
              rw [healThumbCam_eq_thumbOk env qid
                (withCamLoc (withThumbQr it t q) (env.exif d).1 (env.exif d).2)
                d t q hfb
                (by rw [withCamLoc_thumb, withThumbQr_thumb, h5, Bool.false_and])
                (by rw [withCamLoc_thumb, withThumbQr_thumb, h5]) hth]
              rw [withThumbQr_absorb]
              by_cases h6 :
                  (!(truthy (some (env.exif d).1)) ||
                    ((some (env.exif d).1 : Option String) == some ("Unknown"))) = true
              · rw [healCam_eq_pos env d
                  (withCamLoc (withThumbQr it t q) (env.exif d).1 (env.exif d).2)
                  (by rw [withCamLoc_camera]; exact h6)]
                rw [withCamLoc_withCamLoc]
              · rw [healCam_eq_neg env d
                  (withCamLoc (withThumbQr it t q) (env.exif d).1 (env.exif d).2)
                  (by rw [withCamLoc_camera]; simpa using h6)]
          · replace h4 :
                (!(truthy it.camera) || (it.camera == some ("Unknown"))) = false := by
              simpa using h4
            rw [healCam_eq_neg env d (withThumbQr it t q)
              (by rw [withThumbQr_camera]; exact h4)]
            dsimp only
            have hcamT : truthy it.camera = true := by
              revert h4; cases truthy it.camera <;> simp
            by_cases h5 : truthy t = true
            · rw [healThumbCam_eq_skip env qid (withThumbQr it t q) d hfb
                (by rw [withThumbQr_thumb, withThumbQr_camera, h5, hcamT]; rfl)]
            · replace h5 : truthy t = false := by simpa using h5
              rw [healThumbCam_eq_thumbOk env qid (withThumbQr it t q) d t q hfb
                (by rw [withThumbQr_thumb, h5, Bool.false_and])
                (by rw [withThumbQr_thumb, h5]) hth]
              rw [withThumbQr_withThumbQr]
              rw [healCam_eq_neg env d (withThumbQr it t q)
                (by rw [withThumbQr_camera]; exact h4)]

/-- Abbreviation for an update of the optional `creator` field. -/
def withCreatorOpt (it : Entry) (x : Option String) : Entry :=
  { it with creator := x }

theorem withCreatorOpt_self (it : Entry) : withCreatorOpt it it.creator = it := rfl

theorem withCreator_eq_opt (it : Entry) (c : String) :
    withCreator it c = withCreatorOpt it (some c) := rfl

theorem withThumbQr_withCreatorOpt (it : Entry) (t q x : Option String) :
    withThumbQr (withCreatorOpt it x) t q = withCreatorOpt (withThumbQr it t q) x := rfl

theorem healCam_withCreatorOpt (env : HealEnv) (d : Bytes) (it : Entry)
    (x : Option String) :
    healCam env d (withCreatorOpt it x) =
      (withCreatorOpt (healCam env d it).1 x, (healCam env d it).2) := by
  by_cases h : (!(truthy it.camera) || (it.camera == some ("Unknown"))) = true
  · rw [healCam_eq_pos env d it h, healCam_eq_pos env d (withCreatorOpt it x) h]
    rfl
  · rw [healCam_eq_neg env d it (by simpa using h),
      healCam_eq_neg env d (withCreatorOpt it x) (by simpa using h)]

theorem healThumbCam_withCreatorOpt (env : HealEnv) (qid : String) (it : Entry)
    (x : Option String) :
    healThumbCam env qid (withCreatorOpt it x) =
      (withCreatorOpt (healThumbCam env qid it).1 x,
        (healThumbCam env qid it).2) := by
  cases hfb : env.fileBytes (it.local_path.getD ("")) with
  | none =>
    rw [healThumbCam_eq_noFile env qid it hfb,
      healThumbCam_eq_noFile env qid (withCreatorOpt it x) hfb]
  | some d =>
    by_cases h1 : (truthy it.thumb_path && truthy it.camera) = true
    · rw [healThumbCam_eq_skip env qid it d hfb h1,
        healThumbCam_eq_skip env qid (withCreatorOpt it x) d hfb h1]
    · replace h1 : (truthy it.thumb_path && truthy it.camera) = false := by
        simpa using h1
      by_cases h2 : truthy it.thumb_path = true
      · rw [healThumbCam_eq_camOnly env qid it d hfb h1 h2,
          healThumbCam_eq_camOnly env qid (withCreatorOpt it x) d hfb h1 h2,
          healCam_withCreatorOpt env d it x]
      · replace h2 : truthy it.thumb_path = false := by simpa using h2
        cases hth : env.thumbs qid d (env.dq d).2 with
        | none =>
          rw [healThumbCam_eq_thumbFail env qid it d hfb h1 h2 hth,
            healThumbCam_eq_thumbFail env qid (withCreatorOpt it x) d hfb h1 h2 hth]
        | some tq =>
          obtain ⟨t, q⟩ := tq
          rw [healThumbCam_eq_thumbOk env qid it d t q hfb h1 h2 hth,
            healThumbCam_eq_thumbOk env qid (withCreatorOpt it x) d t q hfb h1 h2 hth,
            withThumbQr_withCreatorOpt,
            healCam_withCreatorOpt env d (withThumbQr it t q) x]

theorem healFetch_withCreatorOpt (env : HealEnv) (it : Entry) (x : Option String) :
    healFetch env (withCreatorOpt it x) = healFetch env it := rfl

theorem healCreator_eq_neg (env : HealEnv) (it : Entry)
    (h : (!(truthy it.creator) || (it.creator == some ("Unknown"))) = false) :
    healCreator env it = (it, 0) := by
  unfold healCreator
  rw [if_neg (by simp [h])]

theorem healCreator_eq_fetchNone (env : HealEnv) (it : Entry)
    (h : (!(truthy it.creator) || (it.creator == some ("Unknown"))) = true)
    (hf : healFetch env it = none) :
    healCreator env it = (it, 1) := by
  unfold healCreator
  rw [if_pos h]
  simp only [hf]

theorem healCreator_eq_unknown (env : HealEnv) (it : Entry)
    (h : (!(truthy it.creator) || (it.creator == some ("Unknown"))) = true)
    (hf : healFetch env it = some ("Unknown")) :
    healCreator env it = (it, 1) := by
  unfold healCreator
  rw [if_pos h]
  simp only [hf]
  rw [if_pos (by rfl)]

theorem healCreator_eq_set (env : HealEnv) (it : Entry) (c : String)
    (h : (!(truthy it.creator) || (it.creator == some ("Unknown"))) = true)
    (hf : healFetch env it = some c) (hc : (c == "Unknown") = false) :
    healCreator env it = (withCreator it c, 1) := by
  unfold healCreator withCreator
  rw [if_pos h]
  simp only [hf]
  rw [if_neg (by simp [hc])]

theorem healCreator_fst_idem (env : HealEnv) (it : Entry) :
    (healCreator env (healCreator env it).1).1 = (healCreator env it).1 := by
  by_cases h : (!(truthy it.creator) || (it.creator == some ("Unknown"))) = true
  · cases hf : healFetch env it with
    | none =>
      rw [healCreator_eq_fetchNone env it h hf]
      rw [healCreator_eq_fetchNone env it h hf]
    | some c =>
      by_cases hc : (c == "Unknown") = true
      · have hc' : c = "Unknown" := by simpa using hc
        subst hc'
        rw [healCreator_eq_unknown env it h hf,
          healCreator_eq_unknown env it h hf]
      · replace hc : (c == "Unknown") = false := by simpa using hc
        rw [healCreator_eq_set env it c h hf hc]
        by_cases h2 : (!(truthy (withCreator it c).creator) ||
            ((withCreator it c).creator == some ("Unknown"))) = true
        · rw [healCreator_eq_set env (withCreator it c) c h2
            (by rw [withCreator_eq_opt, healFetch_withCreatorOpt]; exact hf) hc]
          rfl
        · rw [healCreator_eq_neg env (withCreator it c) (by simpa using h2)]
  · rw [healCreator_eq_neg env it (by simpa using h)]
    rw [healCreator_eq_neg env it (by simpa using h)]

theorem healCreator_fst_as_update (env : HealEnv) (it : Entry) :
    ∃ x, (healCreator env it).1 = withCreatorOpt it x := by
  by_cases h : (!(truthy it.creator) || (it.creator == some ("Unknown"))) = true
  · cases hf : healFetch env it with
    | none =>
      exact ⟨it.creator, by rw [healCreator_eq_fetchNone env it h hf,
        withCreatorOpt_self]⟩
    | some c =>
      by_cases hc : (c == "Unknown") = true
      · have hc' : c = "Unknown" := by simpa using hc
        subst hc'
        exact ⟨it.creator, by rw [healCreator_eq_unknown env it h hf,
          withCreatorOpt_self]⟩
      · replace hc : (c == "Unknown") = false := by simpa using hc
        exact ⟨some c, by rw [healCreator_eq_set env it c h hf hc,
          withCreator_eq_opt]⟩
  · exact ⟨it.creator, by rw [healCreator_eq_neg env it (by simpa using h),
      withCreatorOpt_self]⟩

theorem healEntry_fst_idem (env : HealEnv) (qid : String) (it : Entry) :
    (healEntry env qid (healEntry env qid it).1).1 = (healEntry env qid it).1 := by
  show (healCreator env (healThumbCam env qid
      (healCreator env (healThumbCam env qid it).1).1).1).1 =
    (healCreator env (healThumbCam env qid it).1).1
  obtain ⟨x, hx⟩ := healCreator_fst_as_update env (healThumbCam env qid it).1
  rw [hx, healThumbCam_withCreatorOpt]
  dsimp only
  rw [healThumbCam_idem env qid it, ← hx, healCreator_fst_idem env, hx]

theorem healPass_idem (env : HealEnv) (m : Mapping) :
    healPass env (healPass env m) = healPass env m := by
  induction m with
  | nil => rfl
  | cons p m ih =>
    simp only [healPass, List.map_cons] at *
    rw [healEntry_fst_idem env p.1 p.2]
    exact congrArg (List.cons _) ih

theorem healThumbCam_of_populated (env : HealEnv) (qid : String) (it : Entry)
    (h : populated it = true) : healThumbCam env qid it = (it, 0) := by
  have hth : truthy it.thumb_path = true := by
    revert h; unfold populated
    cases truthy it.thumb_path <;> simp
  have hcam : truthy it.camera = true := by
    revert h; unfold populated
    cases truthy it.camera <;> simp
  cases hfb : env.fileBytes (it.local_path.getD ("")) with
  | none => exact healThumbCam_eq_noFile env qid it hfb
  | some d => exact healThumbCam_eq_skip env qid it d hfb (by rw [hth, hcam]; rfl)

theorem healCreator_of_populated (env : HealEnv) (it : Entry)
    (h : populated it = true) : healCreator env it = (it, 0) := by
  have hcr : truthy it.creator = true := by
    revert h; unfold populated
    cases truthy it.creator <;> simp
  have hun : (it.creator == some ("Unknown")) = false := by
    revert h; unfold populated
    cases hcase : it.creator == some ("Unknown") <;> simp
  exact healCreator_eq_neg env it (by rw [hcr, hun]; rfl)

theorem healEntry_of_populated (env : HealEnv) (qid : String) (it : Entry)
    (h : populated it = true) : healEntry env qid it = (it, 0) := by
  unfold healEntry
  rw [healThumbCam_of_populated env qid it h]
  dsimp only
  rw [healCreator_of_populated env it h]
  rfl

/-- Claim C2: the healing pass is a fixed point of the Mapping Store —
running it a second time (against unchanged local files, modelled by the
deterministic environment) returns an identical store — and an entry
whose fields are all populated (none missing, none `"Unknown"`) is
neither recomputed (zero recomputation steps) nor modified. -/
theorem C2_heal_fixed_point (env : HealEnv) (m : Mapping) :
    healPass env (healPass env m) = healPass env m ∧
    ∀ p ∈ m, populated p.2 = true → healEntry env p.1 p.2 = (p.2, 0) :=
  ⟨healPass_idem env m, fun p _ h => healEntry_of_populated env p.1 p.2 h⟩

/-- A trivial healing environment used to witness C2 concretely. -/
def healEnvA : HealEnv :=
  { fileBytes := fun _ => none
    dq := fun _ => (none, none)
    thumbs := fun _ _ _ => none
    exif := fun _ => (("Unknown"), ("Unknown"))
    creatorById := fun _ => none
    creatorByZip := fun _ => none }

/-- A fully populated entry used to witness C2 and a store holding it. -/
def entryPop : Entry :=
  { filename := some ("a.jpg"), drive_id := some ("f1"),
    timestamp := some ("2024-01-01"),
    local_path := some ("assets/images/PD-1.jpg"),
    thumb_path := some ("assets/thumbnails/PD-1_thumb.jpg"),
    qr_path := some ("assets/thumbnails/PD-1_qr.jpg"),
    creator := some ("Ann"), camera := some ("Canon EOS"),
    location := some ("48.85000, 2.35000") }

/-- Witness for C2 at a concrete store with one populated entry. -/
theorem C2_heal_fixed_point_witness :
    healPass healEnvA (healPass healEnvA [(("PD-1"), entryPop)]) =
      healPass healEnvA [(("PD-1"), entryPop)] ∧
    healEntry healEnvA ("PD-1") entryPop = (entryPop, 0) :=
  ⟨(C2_heal_fixed_point healEnvA [(("PD-1"), entryPop)]).1,
    (C2_heal_fixed_point healEnvA [(("PD-1"), entryPop)]).2
      (("PD-1"), entryPop) (List.mem_singleton.mpr rfl) (by decide)⟩

theorem withCamLoc_location (it : Entry) (c l : String) :
    (withCamLoc it c l).location = some l := rfl

/-- Claim C10: whenever the healing pass recomputes an entry's `camera`
field (both recomputation routes: thumbnail already present, or
thumbnail regenerated successfully), it unconditionally overwrites the
entry's `location` with the freshly extracted EXIF value — regardless of
the location previously stored. -/
theorem C10_camera_heal_overwrites_location (env : HealEnv) (qid : String)
    (it : Entry) (d : Bytes)
    (hfb : env.fileBytes (it.local_path.getD ("")) = some d)
    (hcam : (!(truthy it.camera) || (it.camera == some ("Unknown"))) = true)
    (hrec : (truthy it.thumb_path = true ∧ truthy it.camera = false) ∨
      (truthy it.thumb_path = false ∧
        ∃ t q, env.thumbs qid d (env.dq d).2 = some (t, q))) :
    (healThumbCam env qid it).1.camera = some (env.exif d).1 ∧
    (healThumbCam env qid it).1.location = some (env.exif d).2 := by
  rcases hrec with ⟨hth, hc⟩ | ⟨hth, t, q, hthumbs⟩
  · rw [healThumbCam_eq_camOnly env qid it d hfb (by rw [hth, hc]; rfl) hth,
      healCam_eq_pos env d it hcam]
    exact ⟨rfl, rfl⟩
  · rw [healThumbCam_eq_thumbOk env qid it d t q hfb
      (by rw [hth]; rfl) hth hthumbs]
    dsimp only
    rw [healCam_eq_pos env d (withThumbQr it t q)
      (by rw [withThumbQr_camera]; exact hcam)]
    exact ⟨rfl, rfl⟩

/-- A healing environment whose EXIF extractor returns fresh values,
used to witness C10. -/
def healEnvB : HealEnv :=
  { fileBytes := fun _ => some [1]
    dq := fun _ => (none, none)
    thumbs := fun _ _ _ => none
    exif := fun _ => (("NIKON D850"), ("51.50000, -0.12000"))
    creatorById := fun _ => none
    creatorByZip := fun _ => none }

/-- An entry with a populated, known location but a missing camera. -/
def entryKnownLoc : Entry :=
  { filename := some ("b.jpg"),
    local_path := some ("assets/images/PD-2.jpg"),
    thumb_path := some ("assets/thumbnails/PD-2_thumb.jpg"),
    location := some ("0.00000, 0.00000") }

/-- Witness for C10: healing the camera of `entryKnownLoc` replaces its
previously known location with the freshly extracted one. -/
theorem C10_camera_heal_overwrites_location_witness :
    (healThumbCam healEnvB ("PD-2") entryKnownLoc).1.camera =
      some ("NIKON D850") ∧
    (healThumbCam healEnvB ("PD-2") entryKnownLoc).1.location =
      some ("51.50000, -0.12000") :=
  C10_camera_heal_overwrites_location healEnvB ("PD-2") entryKnownLoc [1]
    rfl (by decide) (Or.inl (by decide))

/-- Claim C6 (code-bug evidence): evaluation of `generate_thumbnails` on
decodable 600x400 bytes.  With a rectangle, both outputs are written and
both paths are returned (the crop is padded by 20% per side and clamped
to the image bounds).  Without a rectangle, the width-300 proportionally
scaled preview IS written — but the function returns `(None, None)`, so
the preview's path is lost to the caller, contradicting the documented
contract that a path is absent only when generation failed. -/
theorem C6_thumbnail_eval :
    (generate_thumbnails (fun _ => some (600, 400)) ("PD-3") [0]
        (some { left := 10, top := 20, width := 100, height := 50 }) =
      ([((thumbsPath ("PD-3") ("_thumb.jpg")), 300, 200),
        ((thumbsPath ("PD-3") ("_qr.jpg")), 130, 70)],
        PyRet.pair (some (thumbsPath ("PD-3") ("_thumb.jpg")))
          (some (thumbsPath ("PD-3") ("_qr.jpg"))))) ∧
    (generate_thumbnails (fun _ => some (600, 400)) ("PD-3") [0] none =
      ([((thumbsPath ("PD-3") ("_thumb.jpg")), 300, 200)],
        PyRet.pair none none)) := by
  exact ⟨rfl, rfl⟩

/-- An image environment with a 1x1 decodable image: the 45% crop is
empty (`int(1 * 0.45) = 0`), and `cv2.cvtColor` raises on an empty
source matrix. -/
def qrEnvTiny : QrEnv (Nat × Nat) :=
  { imdecode := fun _ => Except.ok (some (1, 1))
    pyzDecode := fun _ => Except.ok []
    width := fun p => p.1
    height := fun p => p.2
    crop := fun p ch cw => (min cw p.1, min ch p.2)
    cvtGray := fun p =>
      if p.1 = 0 || p.2 = 0 then Except.error ("cvtColor: empty src")
      else Except.ok p }

/-- Claim C7 counterexample: on a decodable 1x1 image the crop variant
`detect_qr` of the FIXED script propagates the library exception raised
by the grayscale conversion of its empty crop (it has no `try` guard),
while the full-frame variant returns `(None, None)` — so it is false
that neither variant ever propagates an exception. -/
theorem C7_crop_variant_raises :
    detect_qr_fixed qrEnvTiny [0] = Except.error ("cvtColor: empty src") ∧
    detect_qr qrEnvTiny [0] = (none, none) := ⟨rfl, rfl⟩

/-- Claim C7 (amended): the full-frame variant returns `(None, None)` or
the first decoded `(identifier, rectangle)` and never propagates an
exception; the crop variant, whenever it returns normally, returns only
an optional identifier — the first decoded payload of the grayscale
45%-crop — and no rectangle. -/
theorem C7_first_decode_contract {Img : Type} (env : QrEnv Img) (d : Bytes) :
    (detect_qr env d = (none, none) ∨
      ∃ img q qs, env.imdecode d = Except.ok (some img) ∧
        env.pyzDecode img = Except.ok (q :: qs) ∧
        detect_qr env d = (some q.data, some q.rect)) ∧
    (∀ res, detect_qr_fixed env d = Except.ok res →
      res = none ∨
      ∃ img gray q qs, env.imdecode d = Except.ok (some img) ∧
        env.cvtGray (env.crop img (env.height img * 45 / 100)
          (env.width img * 45 / 100)) = Except.ok gray ∧
        env.pyzDecode gray = Except.ok (q :: qs) ∧ res = some q.data) := by
  constructor
  · unfold detect_qr
    cases him : env.imdecode d with
    | error e => left; rfl
    | ok io =>
      cases io with
      | none => left; rfl
      | some img =>
        dsimp only
        cases hpz : env.pyzDecode img with
        | error e => left; rfl
        | ok objs =>
          cases objs with
          | nil => left; rfl
          | cons q qs => right; exact ⟨img, q, qs, rfl, hpz, rfl⟩
  · intro res hres
    unfold detect_qr_fixed at hres
    cases him : env.imdecode d with
    | error e => rw [him] at hres; cases hres
    | ok io =>
      cases io with
      | none =>
        rw [him] at hres
        left
        cases hres
        rfl
      | some img =>
        rw [him] at hres
        dsimp only at hres
        cases hgr : env.cvtGray (env.crop img (env.height img * 45 / 100)
            (env.width img * 45 / 100)) with
        | error e => rw [hgr] at hres; cases hres
        | ok gray =>
          rw [hgr] at hres
          dsimp only at hres
          cases hpz : env.pyzDecode gray with
          | error e => rw [hpz] at hres; cases hres
          | ok objs =>
            rw [hpz] at hres
            cases objs with
            | nil =>
              left
              cases hres
              rfl
            | cons q qs =>
              right
              refine ⟨img, gray, q, qs, rfl, hgr, hpz, ?_⟩
              cases hres
              rfl

/-- An image environment where decoding succeeds with two results, used
to witness C7's amended contract: the first result wins. -/
def qrEnvTwo : QrEnv (Nat × Nat) :=
  { imdecode := fun _ => Except.ok (some (100, 100))
    pyzDecode := fun _ => Except.ok
      [{ data := ("PD-7"), rect := { left := 1, top := 2, width := 3, height := 4 } },
       { data := ("ZZ-9"), rect := { left := 5, top := 6, width := 7, height := 8 } }]
    width := fun p => p.1
    height := fun p => p.2
    crop := fun p ch cw => (min cw p.1, min ch p.2)
    cvtGray := fun p =>
      if p.1 = 0 || p.2 = 0 then Except.error ("cvtColor: empty src")
      else Except.ok p }

/-- Witness for the amended C7, applying it where the crop variant
returns the first decoded identifier. -/
theorem C7_first_decode_contract_witness :
    (some ("PD-7") : Option String) = none ∨
    ∃ img gray q qs, qrEnvTwo.imdecode [0] = Except.ok (some img) ∧
      qrEnvTwo.cvtGray (qrEnvTwo.crop img (qrEnvTwo.height img * 45 / 100)
        (qrEnvTwo.width img * 45 / 100)) = Except.ok gray ∧
      qrEnvTwo.pyzDecode gray = Except.ok (q :: qs) ∧
      (some ("PD-7") : Option String) = some q.data :=
  (C7_first_decode_contract qrEnvTwo [0]).2 (some ("PD-7")) rfl

/-! ### The sync orchestrator (`process_zip` / `process_folder`)

Remote Drive objects, ZIP entries, and the per-asset loop, with an
event trace recording downloads (`files().get_media` requests), matches,
store persists and store saves.  `failWrite` / `failUpload` inject the
outcomes of the fallible local-write and `files().update` calls; every
other library call in this region of the source is wrapped in `try` and
modelled as total. -/

/-- Suffix test used for the `str.endswith` checks. -/
def strEndsWith (s t : String) : Bool := t.data.isSuffixOf s.data

/-- One member of a ZIP archive (name and content bytes). -/
structure ZEntry where
  filename : String
  data : Bytes
deriving DecidableEq, Repr

/-- `z_item.is_dir()`: the stored name ends with a slash. -/
def isDirE (e : ZEntry) : Bool := strEndsWith e.filename ("/")

/-- ASCII lower-casing of one character (`str.lower` on the ASCII names
handled here). -/
def lowerChar (c : Char) : Char :=
  if 65 ≤ c.toNat ∧ c.toNat ≤ 90 then Char.ofNat (c.toNat + 32) else c

/-- `img_name.lower().endswith(('.jpg','.jpeg','.png','.tiff','.webp'))`. -/
def isImageName (s : String) : Bool :=
  let l := s.data.map lowerChar
  ['.','j','p','g'].isSuffixOf l || ['.','j','p','e','g'].isSuffixOf l ||
  ['.','p','n','g'].isSuffixOf l || ['.','t','i','f','f'].isSuffixOf l ||
  ['.','w','e','b','p'].isSuffixOf l

/-- Helper for `basename`: keep the characters after the last slash. -/
def baseGo : List Char → List Char → List Char
  | cur, [] => cur.reverse
  | cur, c :: cs => if c == '/' then baseGo [] cs else baseGo (c :: cur) cs

/-- `os.path.basename`: the part after the last slash. -/
def basename (s : String) : String := String.mk (baseGo [] s.data)

/-- `z_old.open(name)` / `z_old.read(name)`: `zipfile` resolves members
by name through `NameToInfo`, where the last entry of a duplicated name
wins. -/
def readName : List ZEntry → String → Option Bytes
  | [], _ => none
  | e :: es, n =>
    match readName es n with
    | some d => some d
    | none => if e.filename == n then some e.data else none

/-- The duplicate check of `process_zip` (line 355): some stored entry's
`filename` equals this member's basename. -/
def capturedBy (m : Mapping) (n : String) : Bool :=
  m.any (fun p => p.2.filename == some (basename n))

/-- Observable events of the orchestrator. -/
inductive Ev where
  | download : String → Ev
  | matched : String → Ev
  | persisted : String → Ev
  | save : Ev
deriving DecidableEq, Repr

/-- Environment of the Drive orchestrator: QR decoding (the wrapped
total variant), EXIF extraction, thumbnail generation results, the
current timestamp, and injected outcomes for the fallible local write
and remote-archive update. -/
structure OrchEnv where
  dq : Bytes → Option String × Option Rect
  exif : Bytes → String × String
  thumbs : String → Bytes → Option Rect → Option String × Option String
  failWrite : String → Bool
  failUpload : String → Bool
  nowStr : String

/-- State threaded through the entry loop of `process_zip`. -/
structure ZipState where
  mapping : Mapping
  newArch : List ZEntry
  matchCount : Nat
  removed : Bool
  trace : List Ev
deriving DecidableEq, Repr

/-- The decoded identifier `qr_id` of some bytes — empty when falsy. -/
def qid (env : OrchEnv) (d : Bytes) : String := ((env.dq d).1).getD ("")

/-- The `MappingEntry` built in the ZIP branch (lines 373-383):
provenance is `source_zip = file_name`, not a bare drive file id. -/
def zipEntry (env : OrchEnv) (zname creator n : String) (d : Bytes) : Entry :=
  { filename := some (basename n),
    source_zip := some zname,
    timestamp := some env.nowStr,
    local_path := some (imagesPath (qid env d)),
    thumb_path := (env.thumbs (qid env d) d (env.dq d).2).1,
    qr_path := (env.thumbs (qid env d) d (env.dq d).2).2,
    creator := some creator,
    camera := some (env.exif d).1,
    location := some (env.exif d).2 }

/-- One iteration of the `for z_item in z_old.infolist()` loop
(lines 345-394).  `Except.error` carries the state at the point an
exception is raised (the mapping mutations made so far survive, since
the dict is mutated in place). -/
def zipStep (env : OrchEnv) (zname creator : String) (orig : List ZEntry)
    (st : ZipState) (e : ZEntry) : Except ZipState ZipState :=
  if isDirE e then
    Except.ok { st with newArch := st.newArch ++ [⟨e.filename, []⟩] }
  else if isImageName e.filename then
    if capturedBy st.mapping e.filename then
      Except.ok { st with removed := true }
    else
      match readName orig e.filename with
      | none => Except.error st
      | some d =>
        if truthy (env.dq d).1 then
          if env.failWrite (imagesPath (qid env d)) then Except.error st
          else
            Except.ok { st with
              mapping := dictSet st.mapping (qid env d)
                (zipEntry env zname creator e.filename d),
              matchCount := st.matchCount + 1,
              removed := true,
              trace := st.trace ++ [Ev.matched (qid env d)] }
        else
          Except.ok { st with newArch := st.newArch ++ [⟨e.filename, d⟩] }
  else
    match readName orig e.filename with
    | none => Except.error st
    | some d => Except.ok { st with newArch := st.newArch ++ [⟨e.filename, d⟩] }

/-- The entry loop of `process_zip`. -/
def zipLoop (env : OrchEnv) (zname creator : String) (orig : List ZEntry) :
    List ZEntry → ZipState → Except ZipState ZipState
  | [], st => Except.ok st
  | e :: rest, st =>
    match zipStep env zname creator orig st e with
    | Except.ok st' => zipLoop env zname creator orig rest st'
    | Except.error st' => Except.error st'

/-- A remote Drive object: plain file bytes or a ZIP archive. -/
inductive RemoteObj where
  | bytes : Bytes → RemoteObj
  | arch : List ZEntry → RemoteObj
deriving DecidableEq, Repr

/-- The remote object store, keyed by file id. -/
abbrev Remote := List (String × RemoteObj)

def remoteFind : Remote → String → Option RemoteObj
  | [], _ => none
  | p :: r, fid => if p.1 == fid then some p.2 else remoteFind r fid

def lookupBytes (r : Remote) (fid : String) : Option Bytes :=
  match remoteFind r fid with
  | some (RemoteObj.bytes b) => some b
  | _ => none

def lookupArch (r : Remote) (fid : String) : Option (List ZEntry) :=
  match remoteFind r fid with
  | some (RemoteObj.arch es) => some es
  | _ => none

/-- `files().update(fileId=..., media_body=...)`: replaces the content of
the object with the given id. -/
def setArch (r : Remote) (fid : String) (es : List ZEntry) : Remote :=
  r.map (fun p => if p.1 == fid then (p.1, RemoteObj.arch es) else p)

def zipInit (m : Mapping) : ZipState :=
  { mapping := m, newArch := [], matchCount := 0, removed := false, trace := [] }

/-- `process_zip` (lines 326-406): download the archive, filter its
entries, and re-upload the rewrite only when something was removed; any
exception is caught and `0` returned with the remote object unchanged
(the in-place mapping mutations survive). -/
def process_zip (env : OrchEnv) (remote : Remote) (file_id file_name : String)
    (mapping : Mapping) (creator : String) :
    Mapping × Remote × Nat × List Ev :=
  match lookupArch remote file_id with
  | none => (mapping, remote, 0, [Ev.download file_id])
  | some es =>
    match zipLoop env file_name creator es es (zipInit mapping) with
    | Except.error st => (st.mapping, remote, 0, Ev.download file_id :: st.trace)
    | Except.ok st =>
      if st.removed then
        if env.failUpload file_id then
          (st.mapping, remote, 0, Ev.download file_id :: st.trace)
        else
          (st.mapping, setArch remote file_id st.newArch, st.matchCount,
            Ev.download file_id :: st.trace)
      else (st.mapping, remote, st.matchCount, Ev.download file_id :: st.trace)

/-- A remote file descriptor as yielded by the paginated listing. -/
structure AssetDesc where
  fid : String
  name : String
  created : Option String
  owner : Option String
  isZip : Bool
deriving DecidableEq, Repr

/-- State threaded through `process_folder`. -/
structure FolderSt where
  mapping : Mapping
  remote : Remote
  matchCount : Nat
  trace : List Ev
deriving DecidableEq, Repr

/-- The `MappingEntry` built in the plain-image branch (lines 454-464). -/
def folderEntry (env : OrchEnv) (a : AssetDesc) (creator : String)
    (d : Bytes) : Entry :=
  { filename := some a.name,
    drive_id := some a.fid,
    timestamp := a.created,
    local_path := some (imagesPath (qid env d)),
    thumb_path := (env.thumbs (qid env d) d (env.dq d).2).1,
    qr_path := (env.thumbs (qid env d) d (env.dq d).2).2,
    creator := some creator,
    camera := some (env.exif d).1,
    location := some (env.exif d).2 }

/-- One iteration of the per-item loop of `process_folder`
(lines 420-467).  Images already recorded by `drive_id` are skipped
before any download; a failed fetch or local write is caught and the
item skipped; `process_folder` itself never saves the store. -/
def folderStep (env : OrchEnv) (st : FolderSt) (a : AssetDesc) : FolderSt :=
  let creator := a.owner.getD ("Unknown")
  if a.isZip then
    { mapping := (process_zip env st.remote a.fid a.name st.mapping creator).1,
      remote := (process_zip env st.remote a.fid a.name st.mapping creator).2.1,
      matchCount := st.matchCount +
        (process_zip env st.remote a.fid a.name st.mapping creator).2.2.1,
      trace := st.trace ++
        (process_zip env st.remote a.fid a.name st.mapping creator).2.2.2 }
  else if st.mapping.any (fun p => p.2.drive_id == some a.fid) then st
  else
    match lookupBytes st.remote a.fid with
    | none => { st with trace := st.trace ++ [Ev.download a.fid] }
    | some d =>
      if truthy (env.dq d).1 then
        if env.failWrite (imagesPath (qid env d)) then
          { st with trace := st.trace ++ [Ev.download a.fid] }
        else
          { st with
            mapping := dictSet st.mapping (qid env d)
              (folderEntry env a creator d),
            matchCount := st.matchCount + 1,
            trace := st.trace ++ [Ev.download a.fid, Ev.matched (qid env d)] }
      else { st with trace := st.trace ++ [Ev.download a.fid] }

/-- `process_folder` over the (concatenated) pages of the listing. -/
def process_folder (env : OrchEnv) (listing : List AssetDesc)
    (remote : Remote) (mapping : Mapping) : FolderSt :=
  listing.foldl (folderStep env)
    { mapping := mapping, remote := remote, matchCount := 0, trace := [] }

/-! ### The legacy album sync (`sync_album` of the FIXED variant)

Per media item: skip when the `google_id` is already recorded, download
the `=w1000` rendition, run the (unguarded) crop QR detector, and on a
truthy match mirror the original (`=d`); only when the mirror download
succeeds is the entry stored and the Mapping Store saved to its file
(`save_json`, line 308) — immediately, before the next item. -/

/-- A Mapping Store entry of the legacy variant (lines 300-307). -/
structure AEntry where
  filename : String
  google_url : String
  google_id : String
  timestamp : Option String
  archive : String
  local_path : String
deriving DecidableEq, Repr

/-- Dict assignment for the legacy store. -/
def adictSet : List (String × AEntry) → String → AEntry →
    List (String × AEntry)
  | [], k, v => [(k, v)]
  | p :: m, k, v => if p.1 == k then (k, v) :: m else p :: adictSet m k v

/-- One media item of `mediaItems().search`. -/
structure MediaItem where
  filename : String
  baseUrl : String
  gid : String
  creation : Option String
deriving DecidableEq, Repr

/-- Environment of the legacy sync: URL downloads (`None` = failure) and
the crop QR detector, whose exceptions propagate. -/
structure AlbumEnv where
  download : String → Option Bytes
  dqF : Bytes → Except String (Option String)

structure AlbumSt where
  mapping : List (String × AEntry)
  trace : List Ev
deriving DecidableEq, Repr

/-- One iteration of the per-item loop of `sync_album` (lines 261-312). -/
def albumStep (env : AlbumEnv) (archive_name : String) (st : AlbumSt)
    (item : MediaItem) : Except AlbumSt AlbumSt :=
  if st.mapping.any (fun p => p.2.google_id == item.gid) then Except.ok st
  else
    let scanUrl := item.baseUrl ++ ("=w1000")
    let st1 : AlbumSt := { st with trace := st.trace ++ [Ev.download scanUrl] }
    match env.download scanUrl with
    | none => Except.ok st1
    | some bs =>
      match env.dqF bs with
      | Except.error _ => Except.error st1
      | Except.ok qro =>
        if truthy qro then
          let qr := qro.getD ("")
          let origUrl := item.baseUrl ++ ("=d")
          let st2 : AlbumSt :=
            { st1 with trace := st1.trace ++ [Ev.matched qr, Ev.download origUrl] }
          match env.download origUrl with
          | none => Except.ok st2
          | some _ =>
            Except.ok { st2 with
              mapping := adictSet st2.mapping qr
                { filename := item.filename, google_url := item.baseUrl,
                  google_id := item.gid, timestamp := item.creation,
                  archive := archive_name,
                  local_path := ("assets/images/") ++ qr ++ (".jpg") },
              trace := st2.trace ++ [Ev.persisted qr, Ev.save] }
        else Except.ok st1

def albumLoop (env : AlbumEnv) (archive_name : String) :
    List MediaItem → AlbumSt → Except AlbumSt AlbumSt
  | [], st => Except.ok st
  | item :: rest, st =>
    match albumStep env archive_name st item with
    | Except.ok st' => albumLoop env archive_name rest st'
    | Except.error st' => Except.error st'

/-- `sync_album`: runs the loop; a propagated exception surfaces the
state reached so far (the caller catches it per album). -/
def sync_album (env : AlbumEnv) (archive_name : String)
    (items : List MediaItem) (m : List (String × AEntry)) : AlbumSt :=
  match albumLoop env archive_name items { mapping := m, trace := [] } with
  | Except.ok st => st
  | Except.error st => st

/-- A trace is well-saved when every `persisted` event is immediately
followed by a `save` event. -/
def wellSaved : List Ev → Bool
  | [] => true
  | e :: rest =>
    (match e, rest with
     | Ev.persisted _, Ev.save :: _ => true
     | Ev.persisted _, _ => false
     | _, _ => true) && wellSaved rest

theorem zipStep_eq_dir (env : OrchEnv) (zname creator : String)
    (orig : List ZEntry) (st : ZipState) (e : ZEntry)
    (hd : isDirE e = true) :
    zipStep env zname creator orig st e =
      Except.ok { st with newArch := st.newArch ++ [⟨e.filename, []⟩] } := by
  unfold zipStep
  rw [if_pos hd]

theorem zipStep_eq_captured (env : OrchEnv) (zname creator : String)
    (orig : List ZEntry) (st : ZipState) (e : ZEntry)
    (hd : isDirE e = false) (hi : isImageName e.filename = true)
    (hc : capturedBy st.mapping e.filename = true) :
    zipStep env zname creator orig st e =
      Except.ok { st with removed := true } := by
  unfold zipStep
  rw [if_neg (by simp [hd]), if_pos hi, if_pos hc]

theorem zipStep_eq_readNoneImg (env : OrchEnv) (zname creator : String)
    (orig : List ZEntry) (st : ZipState) (e : ZEntry)
    (hd : isDirE e = false) (hi : isImageName e.filename = true)
    (hc : capturedBy st.mapping e.filename = false)
    (hr : readName orig e.filename = none) :
    zipStep env zname creator orig st e = Except.error st := by
  unfold zipStep
  rw [if_neg (by simp [hd]), if_pos hi, if_neg (by simp [hc])]
  simp only [hr]

theorem zipStep_eq_match (env : OrchEnv) (zname creator : String)
    (orig : List ZEntry) (st : ZipState) (e : ZEntry) (d : Bytes)
    (hd : isDirE e = false) (hi : isImageName e.filename = true)
    (hc : capturedBy st.mapping e.filename = false)
    (hr : readName orig e.filename = some d)
    (ht : truthy (env.dq d).1 = true)
    (hw : env.failWrite (imagesPath (qid env d)) = false) :
    zipStep env zname creator orig st e =
      Except.ok { st with
        mapping := dictSet st.mapping (qid env d)
          (zipEntry env zname creator e.filename d),
        matchCount := st.matchCount + 1,
        removed := true,
        trace := st.trace ++ [Ev.matched (qid env d)] } := by
  unfold zipStep
  rw [if_neg (by simp [hd]), if_pos hi, if_neg (by simp [hc])]
  simp only [hr]
  rw [if_pos ht, if_neg (by simp [hw])]

theorem zipStep_eq_writeFail (env : OrchEnv) (zname creator : String)
    (orig : List ZEntry) (st : ZipState) (e : ZEntry) (d : Bytes)
    (hd : isDirE e = false) (hi : isImageName e.filename = true)
    (hc : capturedBy st.mapping e.filename = false)
    (hr : readName orig e.filename = some d)
    (ht : truthy (env.dq d).1 = true)
    (hw : env.failWrite (imagesPath (qid env d)) = true) :
    zipStep env zname creator orig st e = Except.error st := by
  unfold zipStep
  rw [if_neg (by simp [hd]), if_pos hi, if_neg (by simp [hc])]
  simp only [hr]
  rw [if_pos ht, if_pos hw]

theorem zipStep_eq_keep (env : OrchEnv) (zname creator : String)
    (orig : List ZEntry) (st : ZipState) (e : ZEntry) (d : Bytes)
    (hd : isDirE e = false) (hi : isImageName e.filename = true)
    (hc : capturedBy st.mapping e.filename = false)
    (hr : readName orig e.filename = some d)
    (ht : truthy (env.dq d).1 = false) :
    zipStep env zname creator orig st e =
      Except.ok { st with newArch := st.newArch ++ [⟨e.filename, d⟩] } := by
  unfold zipStep
  rw [if_neg (by simp [hd]), if_pos hi, if_neg (by simp [hc])]
  simp only [hr]
  rw [if_neg (by simp [ht])]

theorem zipStep_eq_nonImage (env : OrchEnv) (zname creator : String)
    (orig : List ZEntry) (st : ZipState) (e : ZEntry) (d : Bytes)
    (hd : isDirE e = false) (hi : isImageName e.filename = false)
    (hr : readName orig e.filename = some d) :
    zipStep env zname creator orig st e =
      Except.ok { st with newArch := st.newArch ++ [⟨e.filename, d⟩] } := by
  unfold zipStep
  rw [if_neg (by simp [hd]), if_neg (by simp [hi])]
  simp only [hr]

theorem zipStep_eq_readNoneNon (env : OrchEnv) (zname creator : String)
    (orig : List ZEntry) (st : ZipState) (e : ZEntry)
    (hd : isDirE e = false) (hi : isImageName e.filename = false)
    (hr : readName orig e.filename = none) :
    zipStep env zname creator orig st e = Except.error st := by
  unfold zipStep
  rw [if_neg (by simp [hd]), if_neg (by simp [hi])]
  simp only [hr]

theorem zipLoop_append (env : OrchEnv) (zname creator : String)
    (orig l₁ l₂ : List ZEntry) (st : ZipState) :
    zipLoop env zname creator orig (l₁ ++ l₂) st =
      match zipLoop env zname creator orig l₁ st with
      | Except.ok st' => zipLoop env zname creator orig l₂ st'
      | Except.error st' => Except.error st' := by
  induction l₁ generalizing st with
  | nil => simp [zipLoop]
  | cons e rest ih =>
    simp only [List.cons_append, zipLoop]
    cases zipStep env zname creator orig st e with
    | ok st' => exact ih st'
    | error st' => rfl

theorem readName_eq_none (A : List ZEntry) (n : String)
    (h : ∀ e ∈ A, e.filename ≠ n) : readName A n = none := by
  induction A with
  | nil => rfl
  | cons e es ih =>
    have h1 : readName es n = none := ih (fun x hx => h x (List.mem_cons_of_mem e hx))
    have h2 : (e.filename == n) = false := by
      simpa using h e (List.mem_cons_self e es)
    simp [readName, h1, h2]

theorem readName_some_mem (A : List ZEntry) (n : String) (d : Bytes)
    (h : readName A n = some d) :
    ∃ e ∈ A, e.filename = n ∧ e.data = d := by
  induction A with
  | nil => cases h
  | cons e es ih =>
    unfold readName at h
    cases hr : readName es n with
    | some d' =>
      rw [hr] at h
      cases h
      obtain ⟨x, hx, hn, hd⟩ := ih hr
      exact ⟨x, List.mem_cons_of_mem e hx, hn, hd⟩
    | none =>
      rw [hr] at h
      by_cases hf : (e.filename == n) = true
      · rw [if_pos hf] at h
        cases h
        exact ⟨e, List.mem_cons_self e es, by simpa using hf, rfl⟩
      · rw [if_neg hf] at h
        cases h

theorem readName_isSome_of_mem (A : List ZEntry) (e : ZEntry)
    (h : e ∈ A) : ∃ d, readName A e.filename = some d := by
  induction A with
  | nil => cases h
  | cons x es ih =>
    unfold readName
    rcases List.mem_cons.mp h with rfl | hmem
    · cases hr : readName es e.filename with
      | some d => exact ⟨d, rfl⟩
      | none => exact ⟨e.data, by simp⟩
    · obtain ⟨d, hd⟩ := ih hmem
      exact ⟨d, by simp [hd]⟩

theorem readName_nodup (A : List ZEntry) (e : ZEntry)
    (hN : (A.map (fun x => x.filename)).Nodup) (h : e ∈ A) :
    readName A e.filename = some e.data := by
  induction A with
  | nil => cases h
  | cons x es ih =>
    simp only [List.map_cons, List.nodup_cons] at hN
    rcases List.mem_cons.mp h with rfl | hmem
    · have : readName es e.filename = none := by
        apply readName_eq_none
        intro y hy hne
        exact hN.1 (hne ▸ List.mem_map_of_mem (fun z => z.filename) hy)
      simp [readName, this]
    · have := ih hN.2 hmem
      simp [readName, this]

/-- The state carried by either outcome of an `Except`-returning loop
(on an exception, the in-place mutations made so far survive). -/
def exceptState : Except ZipState ZipState → ZipState
  | Except.ok st => st
  | Except.error st => st

/-- The case shape of `zipStep`: either an exception leaving the state
untouched, or one of the five productive branches. -/
theorem zipStep_shape (env : OrchEnv) (zname creator : String)
    (orig : List ZEntry) (st : ZipState) (e : ZEntry) :
    (zipStep env zname creator orig st e = Except.error st) ∨
    (zipStep env zname creator orig st e =
        Except.ok { st with newArch := st.newArch ++ [⟨e.filename, []⟩] } ∧
      isDirE e = true) ∨
    (zipStep env zname creator orig st e =
        Except.ok { st with removed := true } ∧
      isDirE e = false ∧ isImageName e.filename = true ∧
      capturedBy st.mapping e.filename = true) ∨
    (∃ d, readName orig e.filename = some d ∧ isDirE e = false ∧
      isImageName e.filename = true ∧
      capturedBy st.mapping e.filename = false ∧
      truthy (env.dq d).1 = true ∧
      env.failWrite (imagesPath (qid env d)) = false ∧
      zipStep env zname creator orig st e =
        Except.ok { st with
          mapping := dictSet st.mapping (qid env d)
            (zipEntry env zname creator e.filename d),
          matchCount := st.matchCount + 1,
          removed := true,
          trace := st.trace ++ [Ev.matched (qid env d)] }) ∨
    (∃ d, readName orig e.filename = some d ∧ isDirE e = false ∧
      truthy (env.dq d).1 = false ∧
      zipStep env zname creator orig st e =
        Except.ok { st with newArch := st.newArch ++ [⟨e.filename, d⟩] }) ∨
    (∃ d, readName orig e.filename = some d ∧ isDirE e = false ∧
      isImageName e.filename = false ∧
      zipStep env zname creator orig st e =
        Except.ok { st with newArch := st.newArch ++ [⟨e.filename, d⟩] }) := by
  by_cases hd : isDirE e = true
  · exact Or.inr (Or.inl ⟨zipStep_eq_dir env zname creator orig st e hd, hd⟩)
  · replace hd : isDirE e = false := by simpa using hd
    by_cases hi : isImageName e.filename = true
    · by_cases hc : capturedBy st.mapping e.filename = true
      · exact Or.inr (Or.inr (Or.inl
          ⟨zipStep_eq_captured env zname creator orig st e hd hi hc, hd, hi, hc⟩))
      · replace hc : capturedBy st.mapping e.filename = false := by simpa using hc
        cases hr : readName orig e.filename with
        | none =>
          exact Or.inl (zipStep_eq_readNoneImg env zname creator orig st e hd hi hc hr)
        | some d =>
          by_cases ht : truthy (env.dq d).1 = true
          · by_cases hw : env.failWrite (imagesPath (qid env d)) = true
            · exact Or.inl
                (zipStep_eq_writeFail env zname creator orig st e d hd hi hc hr ht hw)
            · replace hw : env.failWrite (imagesPath (qid env d)) = false := by
                simpa using hw
              exact Or.inr (Or.inr (Or.inr (Or.inl ⟨d, rfl, hd, hi, hc, ht, hw,
                zipStep_eq_match env zname creator orig st e d hd hi hc hr ht hw⟩)))
          · replace ht : truthy (env.dq d).1 = false := by simpa using ht
            exact Or.inr (Or.inr (Or.inr (Or.inr (Or.inl ⟨d, rfl, hd, ht,
              zipStep_eq_keep env zname creator orig st e d hd hi hc hr ht⟩))))
    · replace hi : isImageName e.filename = false := by simpa using hi
      cases hr : readName orig e.filename with
      | none =>
        exact Or.inl (zipStep_eq_readNoneNon env zname creator orig st e hd hi hr)
      | some d =>
        exact Or.inr (Or.inr (Or.inr (Or.inr (Or.inr ⟨d, rfl, hd, hi,
          zipStep_eq_nonImage env zname creator orig st e d hd hi hr⟩))))

/-- Invariance combinator for the ZIP entry loop. -/
theorem zipLoop_inv (env : OrchEnv) (zname creator : String)
    (orig : List ZEntry) (P : ZipState → Prop) (S : List ZEntry)
    (hP : ∀ st e, e ∈ S → P st →
      P (exceptState (zipStep env zname creator orig st e))) :
    ∀ l, (∀ e ∈ l, e ∈ S) → ∀ st, P st →
      P (exceptState (zipLoop env zname creator orig l st)) := by
  intro l
  induction l with
  | nil => intro _ st h; exact h
  | cons e rest ih =>
    intro hsub st h
    simp only [zipLoop]
    cases hst : zipStep env zname creator orig st e with
    | ok st' =>
      have := hP st e (hsub e (List.mem_cons_self e rest)) h
      rw [hst] at this
      exact ih (fun x hx => hsub x (List.mem_cons_of_mem e hx)) st' this
    | error st' =>
      have := hP st e (hsub e (List.mem_cons_self e rest)) h
      rw [hst] at this
      exact this

theorem qid_ne_empty (env : OrchEnv) (d : Bytes)
    (ht : truthy (env.dq d).1 = true) : qid env d ≠ "" := by
  unfold qid
  cases hq : (env.dq d).1 with
  | none => rw [hq] at ht; cases ht
  | some s =>
    rw [hq] at ht
    simpa [Option.getD] using (truthy_some_iff s).mp ht

theorem dictSet_fst_ne (m : Mapping) (k : String) (v : Entry)
    (h0 : ∀ p ∈ m, p.1 ≠ "") (hk : k ≠ "") :
    ∀ p ∈ dictSet m k v, p.1 ≠ "" := by
  intro p hp
  have : p.1 ∈ (dictSet m k v).map (fun q => q.1) :=
    List.mem_map_of_mem (fun q => q.1) hp
  rcases dictSet_keys_sub m k p.1 v this with h | h
  · obtain ⟨q, hq, hq1⟩ := List.mem_map.mp h
    exact hq1 ▸ h0 q hq
  · exact h ▸ hk

theorem zipLoop_trace_events (env : OrchEnv) (zname creator : String)
    (orig : List ZEntry) (t₀ : List Ev) (l : List ZEntry) (st : ZipState)
    (h : ∀ ev ∈ st.trace, ev ∈ t₀ ∨ ∃ q, ev = Ev.matched q) :
    ∀ ev ∈ (exceptState (zipLoop env zname creator orig l st)).trace,
      ev ∈ t₀ ∨ ∃ q, ev = Ev.matched q := by
  refine zipLoop_inv env zname creator orig
    (fun s => ∀ ev ∈ s.trace, ev ∈ t₀ ∨ ∃ q, ev = Ev.matched q) l
    ?_ l (fun x hx => hx) st h
  intro s e _ hs
  rcases zipStep_shape env zname creator orig s e with heq | ⟨heq, _⟩ |
    ⟨heq, _⟩ | ⟨d, _, _, _, _, _, _, heq⟩ | ⟨d, _, _, _, heq⟩ | ⟨d, _, _, _, heq⟩ <;>
    rw [heq] <;> dsimp [exceptState] <;> intro ev hev
  · exact hs ev hev
  · exact hs ev hev
  · exact hs ev hev
  · rcases List.mem_append.mp hev with h' | h'
    · exact hs ev h'
    · right
      exact ⟨qid env d, by simpa using h'⟩
  · exact hs ev hev
  · exact hs ev hev

theorem zipLoop_provenance (env : OrchEnv) (zname creator : String)
    (orig : List ZEntry) (m₀ : Mapping) (l : List ZEntry) (st : ZipState)
    (h : ∀ q e', dictGet st.mapping q = some e' →
      dictGet m₀ q = some e' ∨
      (e'.source_zip = some zname ∧ e'.drive_id = none)) :
    ∀ q e',
      dictGet (exceptState (zipLoop env zname creator orig l st)).mapping q =
        some e' →
      dictGet m₀ q = some e' ∨
      (e'.source_zip = some zname ∧ e'.drive_id = none) := by
  refine zipLoop_inv env zname creator orig
    (fun s => ∀ q e', dictGet s.mapping q = some e' →
      dictGet m₀ q = some e' ∨
      (e'.source_zip = some zname ∧ e'.drive_id = none)) l
    ?_ l (fun x hx => hx) st h
  intro s e _ hs
  rcases zipStep_shape env zname creator orig s e with heq | ⟨heq, _⟩ |
    ⟨heq, _⟩ | ⟨d, _, _, _, _, _, _, heq⟩ | ⟨d, _, _, _, heq⟩ | ⟨d, _, _, _, heq⟩ <;>
    rw [heq] <;> dsimp [exceptState] <;> intro q e' hq
  · exact hs q e' hq
  · exact hs q e' hq
  · exact hs q e' hq
  · by_cases hqq : q = qid env d
    · subst hqq
      rw [dictGet_dictSet_self] at hq
      cases hq
      right
      exact ⟨rfl, rfl⟩
    · rw [dictGet_dictSet_ne s.mapping (qid env d) q _ hqq] at hq
      exact hs q e' hq
  · exact hs q e' hq
  · exact hs q e' hq

theorem zipLoop_goodKeys (env : OrchEnv) (zname creator : String)
    (orig : List ZEntry) (l : List ZEntry) (st : ZipState)
    (h1 : ∀ p ∈ st.mapping, p.1 ≠ "")
    (h2 : (st.mapping.map (fun p => p.1)).Nodup) :
    (∀ p ∈ (exceptState (zipLoop env zname creator orig l st)).mapping,
        p.1 ≠ "") ∧
    ((exceptState (zipLoop env zname creator orig l st)).mapping.map
      (fun p => p.1)).Nodup := by
  refine zipLoop_inv env zname creator orig
    (fun s => (∀ p ∈ s.mapping, p.1 ≠ "") ∧
      (s.mapping.map (fun p => p.1)).Nodup) l
    ?_ l (fun x hx => hx) st ⟨h1, h2⟩
  intro s e _ hs
  rcases zipStep_shape env zname creator orig s e with heq | ⟨heq, _⟩ |
    ⟨heq, _⟩ | ⟨d, _, _, _, _, ht, _, heq⟩ | ⟨d, _, _, _, heq⟩ | ⟨d, _, _, _, heq⟩ <;>
    rw [heq] <;> dsimp [exceptState]
  · exact hs
  · exact hs
  · exact hs
  · exact ⟨dictSet_fst_ne s.mapping (qid env d) _ hs.1 (qid_ne_empty env d ht),
      dictSet_nodup_keys s.mapping (qid env d) _ hs.2⟩
  · exact hs
  · exact hs

theorem zipLoop_newArch_mono (env : OrchEnv) (zname creator : String)
    (orig : List ZEntry) (l : List ZEntry) (st : ZipState) (x : ZEntry)
    (h : x ∈ st.newArch) :
    x ∈ (exceptState (zipLoop env zname creator orig l st)).newArch := by
  refine zipLoop_inv env zname creator orig (fun s => x ∈ s.newArch) l
    ?_ l (fun y hy => hy) st h
  intro s e _ hs
  rcases zipStep_shape env zname creator orig s e with heq | ⟨heq, _⟩ |
    ⟨heq, _⟩ | ⟨d, _, _, _, _, _, _, heq⟩ | ⟨d, _, _, _, heq⟩ | ⟨d, _, _, _, heq⟩ <;>
    rw [heq] <;> dsimp [exceptState]
  · exact hs
  · exact List.mem_append_left _ hs
  · exact hs
  · exact hs
  · exact List.mem_append_left _ hs
  · exact List.mem_append_left _ hs

theorem zipLoop_newArch_names (env : OrchEnv) (zname creator : String)
    (orig : List ZEntry) (l : List ZEntry) (st : ZipState)
    (B₀ : List ZEntry)
    (h : ∀ x ∈ st.newArch, x ∈ B₀ ∨ ∃ e ∈ l, x.filename = e.filename) :
    ∀ x ∈ (exceptState (zipLoop env zname creator orig l st)).newArch,
      x ∈ B₀ ∨ ∃ e ∈ l, x.filename = e.filename := by
  refine zipLoop_inv env zname creator orig
    (fun s => ∀ x ∈ s.newArch, x ∈ B₀ ∨ ∃ e ∈ l, x.filename = e.filename) l
    ?_ l (fun y hy => hy) st h
  intro s e he hs
  rcases zipStep_shape env zname creator orig s e with heq | ⟨heq, _⟩ |
    ⟨heq, _⟩ | ⟨d, _, _, _, _, _, _, heq⟩ | ⟨d, _, _, _, heq⟩ | ⟨d, _, _, _, heq⟩ <;>
    rw [heq] <;> dsimp [exceptState] <;> intro x hx
  · exact hs x hx
  · rcases List.mem_append.mp hx with h' | h'
    · exact hs x h'
    · right
      exact ⟨e, he, by simp at h'; simp [h']⟩
  · exact hs x hx
  · exact hs x hx
  · rcases List.mem_append.mp hx with h' | h'
    · exact hs x h'
    · right
      exact ⟨e, he, by simp at h'; simp [h']⟩
  · rcases List.mem_append.mp hx with h' | h'
    · exact hs x h'
    · right
      exact ⟨e, he, by simp at h'; simp [h']⟩

/-- Every image (non-directory) entry of the rewritten archive carries
bytes on which the QR detector found nothing. -/
theorem zipLoop_clean (env : OrchEnv) (zname creator : String)
    (orig : List ZEntry) (l : List ZEntry) (st : ZipState)
    (h : ∀ x ∈ st.newArch, isDirE x = false → isImageName x.filename = true →
      truthy (env.dq x.data).1 = false) :
    ∀ x ∈ (exceptState (zipLoop env zname creator orig l st)).newArch,
      isDirE x = false → isImageName x.filename = true →
      truthy (env.dq x.data).1 = false := by
  refine zipLoop_inv env zname creator orig
    (fun s => ∀ x ∈ s.newArch, isDirE x = false →
      isImageName x.filename = true → truthy (env.dq x.data).1 = false) l
    ?_ l (fun y hy => hy) st h
  intro s e _ hs
  rcases zipStep_shape env zname creator orig s e with heq | ⟨heq, hd⟩ |
    ⟨heq, _⟩ | ⟨d, _, _, _, _, _, _, heq⟩ | ⟨d, _, _, ht, heq⟩ |
    ⟨d, _, _, hi, heq⟩ <;>
    rw [heq] <;> dsimp [exceptState] <;> intro x hx hxd hxi
  · exact hs x hx hxd hxi
  · rcases List.mem_append.mp hx with h' | h'
    · exact hs x h' hxd hxi
    · simp only [List.mem_singleton] at h'
      subst h'
      rw [show isDirE { filename := e.filename, data := [] } = isDirE e from rfl,
        hd] at hxd
      cases hxd
  · exact hs x hx hxd hxi
  · exact hs x hx hxd hxi
  · rcases List.mem_append.mp hx with h' | h'
    · exact hs x h' hxd hxi
    · simp only [List.mem_singleton] at h'
      subst h'
      exact ht
  · rcases List.mem_append.mp hx with h' | h'
    · exact hs x h' hxd hxi
    · simp only [List.mem_singleton] at h'
      subst h'
      simp only at hxi
      rw [hi] at hxi
      cases hxi

/-- With local writes succeeding and every member resolvable by name,
the entry loop raises no exception. -/
theorem zipLoop_ok (env : OrchEnv) (zname creator : String)
    (orig : List ZEntry) (hW : ∀ p, env.failWrite p = false) :
    ∀ l, (∀ e ∈ l, e ∈ orig) → ∀ st,
      ∃ st', zipLoop env zname creator orig l st = Except.ok st' := by
  intro l
  induction l with
  | nil => intro _ st; exact ⟨st, rfl⟩
  | cons e rest ih =>
    intro hsub st
    have hmem : e ∈ orig := hsub e (List.mem_cons_self e rest)
    have hsub' : ∀ x ∈ rest, x ∈ orig :=
      fun x hx => hsub x (List.mem_cons_of_mem e hx)
    rcases zipStep_shape env zname creator orig st e with heq | ⟨heq, _⟩ |
      ⟨heq, _⟩ | ⟨d, _, _, _, _, _, _, heq⟩ | ⟨d, _, _, _, heq⟩ | ⟨d, _, _, _, heq⟩
    · -- the exception cases are impossible: readName succeeds on members
      -- and failWrite is always false; the shape's error case collapses
      -- them, so re-derive the contradiction from the definition.
      exfalso
      unfold zipStep at heq
      by_cases hd : isDirE e = true
      · rw [if_pos hd] at heq; cases heq
      · rw [if_neg (by simp [hd])] at heq
        obtain ⟨d0, hd0⟩ := readName_isSome_of_mem orig e hmem
        by_cases hi : isImageName e.filename = true
        · rw [if_pos hi] at heq
          by_cases hc : capturedBy st.mapping e.filename = true
          · rw [if_pos hc] at heq; cases heq
          · rw [if_neg (by simp [hc])] at heq
            rw [hd0] at heq
            dsimp only at heq
            by_cases ht : truthy (env.dq d0).1 = true
            · rw [if_pos ht, if_neg (by simp [hW])] at heq
              cases heq
            · rw [if_neg (by simp [(by simpa using ht : truthy (env.dq d0).1 = false)])] at heq
              cases heq
        · rw [if_neg (by simp [hi])] at heq
          rw [hd0] at heq
          dsimp only at heq
          cases heq
    all_goals
      simp only [zipLoop, heq]
      exact ih hsub' _

/-- A (rewritten) archive is scan-clean when none of its image members
resolves, by name, to bytes the QR detector decodes. -/
def scanClean (env : OrchEnv) (A : List ZEntry) : Prop :=
  ∀ e ∈ A, isDirE e = false → isImageName e.filename = true →
    ∀ d, readName A e.filename = some d → truthy (env.dq d).1 = false

theorem scanClean_of_clean (env : OrchEnv) (B : List ZEntry)
    (h : ∀ x ∈ B, isDirE x = false → isImageName x.filename = true →
      truthy (env.dq x.data).1 = false) : scanClean env B := by
  intro e he hd hi d hr
  obtain ⟨x, hx, hn, hdata⟩ := readName_some_mem B e.filename d hr
  have hxd : isDirE x = false := by
    show strEndsWith x.filename ("/") = false
    rw [hn]
    exact hd
  have hxi : isImageName x.filename = true := by rw [hn]; exact hi
  rw [← hdata]
  exact h x hx hxd hxi

/-- Processing a scan-clean archive produces no match and leaves the
store untouched. -/
theorem zipLoop_noMatch (env : OrchEnv) (zname creator : String)
    (A : List ZEntry) (hsc : scanClean env A) :
    ∀ l, (∀ e ∈ l, e ∈ A) → ∀ st,
      ∃ st', zipLoop env zname creator A l st = Except.ok st' ∧
        st'.mapping = st.mapping ∧ st'.matchCount = st.matchCount := by
  intro l
  induction l with
  | nil => intro _ st; exact ⟨st, rfl, rfl, rfl⟩
  | cons e rest ih =>
    intro hsub st
    have hmem : e ∈ A := hsub e (List.mem_cons_self e rest)
    have hsub' : ∀ x ∈ rest, x ∈ A :=
      fun x hx => hsub x (List.mem_cons_of_mem e hx)
    by_cases hd : isDirE e = true
    · obtain ⟨st', h1, h2, h3⟩ := ih hsub'
        { st with newArch := st.newArch ++ [⟨e.filename, []⟩] }
      exact ⟨st', by simp only [zipLoop,
        zipStep_eq_dir env zname creator A st e hd]; exact h1, h2, h3⟩
    · replace hd : isDirE e = false := by simpa using hd
      obtain ⟨d0, hd0⟩ := readName_isSome_of_mem A e hmem
      by_cases hi : isImageName e.filename = true
      · by_cases hc : capturedBy st.mapping e.filename = true
        · obtain ⟨st', h1, h2, h3⟩ := ih hsub' { st with removed := true }
          exact ⟨st', by simp only [zipLoop,
            zipStep_eq_captured env zname creator A st e hd hi hc]; exact h1, h2, h3⟩
        · replace hc : capturedBy st.mapping e.filename = false := by simpa using hc
          have ht : truthy (env.dq d0).1 = false := hsc e hmem hd hi d0 hd0
          obtain ⟨st', h1, h2, h3⟩ := ih hsub'
            { st with newArch := st.newArch ++ [⟨e.filename, d0⟩] }
          exact ⟨st', by simp only [zipLoop,
            zipStep_eq_keep env zname creator A st e d0 hd hi hc hd0 ht]; exact h1,
            h2, h3⟩
      · replace hi : isImageName e.filename = false := by simpa using hi
        obtain ⟨st', h1, h2, h3⟩ := ih hsub'
          { st with newArch := st.newArch ++ [⟨e.filename, d0⟩] }
        exact ⟨st', by simp only [zipLoop,
          zipStep_eq_nonImage env zname creator A st e d0 hd hi hd0]; exact h1,
          h2, h3⟩

/-- When the loop finishes with `removed = false`, nothing matched:
no entry was captured or matched, the store and count are unchanged,
and every image entry's resolved bytes failed to decode. -/
theorem zipLoop_removedFalse (env : OrchEnv) (zname creator : String)
    (orig : List ZEntry) :
    ∀ l st st', zipLoop env zname creator orig l st = Except.ok st' →
      st'.removed = false →
      st.removed = false ∧ st'.matchCount = st.matchCount ∧
      st'.mapping = st.mapping ∧
      ∀ e ∈ l, isDirE e = false → isImageName e.filename = true →
        ∃ d, readName orig e.filename = some d ∧
          truthy (env.dq d).1 = false := by
  intro l
  induction l with
  | nil =>
    intro st st' h hrem
    cases h
    exact ⟨hrem, rfl, rfl, fun e he => absurd he (List.not_mem_nil e)⟩
  | cons e rest ih =>
    intro st st' h hrem
    rcases zipStep_shape env zname creator orig st e with heq | ⟨heq, hd⟩ |
      ⟨heq, hd, hi, hc⟩ | ⟨d, hr, hd, hi, hc, ht, hw, heq⟩ |
      ⟨d, hr, hd, ht, heq⟩ | ⟨d, hr, hd, hi, heq⟩ <;>
      simp only [zipLoop, heq] at h
    · cases h
    · obtain ⟨h1, h2, h3, h4⟩ := ih _ _ h hrem
      dsimp at h1 h2 h3
      refine ⟨h1, h2, h3, ?_⟩
      intro x hx hxd hxi
      rcases List.mem_cons.mp hx with rfl | hx'
      · rw [hd] at hxd; cases hxd
      · exact h4 x hx' hxd hxi
    · obtain ⟨h1, _, _, _⟩ := ih _ _ h hrem
      dsimp at h1
      cases h1
    · obtain ⟨h1, _, _, _⟩ := ih _ _ h hrem
      dsimp at h1
      cases h1
    · obtain ⟨h1, h2, h3, h4⟩ := ih _ _ h hrem
      dsimp at h1 h2 h3
      refine ⟨h1, h2, h3, ?_⟩
      intro x hx hxd hxi
      rcases List.mem_cons.mp hx with rfl | hx'
      · exact ⟨d, hr, ht⟩
      · exact h4 x hx' hxd hxi
    · obtain ⟨h1, h2, h3, h4⟩ := ih _ _ h hrem
      dsimp at h1 h2 h3
      refine ⟨h1, h2, h3, ?_⟩
      intro x hx hxd hxi
      rcases List.mem_cons.mp hx with rfl | hx'
      · rw [hi] at hxi; cases hxi
      · exact h4 x hx' hxd hxi

/-- Claim C9: `process_zip` replaces the remote archive atomically with
respect to processing.  (i) If the returned remote store differs at all,
then the whole entry loop completed without exception, at least one
entry had been removed, the upload succeeded, the new archive is the
loop's rewrite and the returned count is the loop's match count.
(ii) An exception inside the loop yields `0` and an unchanged remote.
(iii) A failed download yields `0` and an unchanged remote.
(iv) A failed upload yields `0` and an unchanged remote. -/
theorem C9_zip_upload_atomicity (env : OrchEnv) (remote : Remote)
    (fid zname : String) (m : Mapping) (creator : String) :
    ((process_zip env remote fid zname m creator).2.1 ≠ remote →
      ∃ es st, lookupArch remote fid = some es ∧
        zipLoop env zname creator es es (zipInit m) = Except.ok st ∧
        st.removed = true ∧ env.failUpload fid = false ∧
        (process_zip env remote fid zname m creator).2.1 =
          setArch remote fid st.newArch ∧
        (process_zip env remote fid zname m creator).2.2.1 = st.matchCount) ∧
    (∀ es st, lookupArch remote fid = some es →
      zipLoop env zname creator es es (zipInit m) = Except.error st →
      (process_zip env remote fid zname m creator).2.2.1 = 0 ∧
      (process_zip env remote fid zname m creator).2.1 = remote) ∧
    (lookupArch remote fid = none →
      (process_zip env remote fid zname m creator).2.2.1 = 0 ∧
      (process_zip env remote fid zname m creator).2.1 = remote) ∧
    (env.failUpload fid = true →
      (process_zip env remote fid zname m creator).2.2.1 = 0 ∧
      (process_zip env remote fid zname m creator).2.1 = remote) := by
  unfold process_zip
  cases hla : lookupArch remote fid with
  | none =>
    refine ⟨fun hne => absurd rfl hne, ?_, fun _ => ⟨rfl, rfl⟩, fun _ => ⟨rfl, rfl⟩⟩
    intro es st hsome
    cases hsome
  | some es =>
    dsimp only
    cases hlp : zipLoop env zname creator es es (zipInit m) with
    | error st =>
      refine ⟨fun hne => absurd rfl hne, ?_, ?_, fun _ => ⟨rfl, rfl⟩⟩
      · intro es' st' hsome hloop
        exact ⟨rfl, rfl⟩
      · intro hnone
        cases hnone
    | ok st =>
      dsimp only
      by_cases hrem : st.removed = true
      · rw [if_pos hrem]
        by_cases hup : env.failUpload fid = true
        · rw [if_pos hup]
          refine ⟨fun hne => absurd rfl hne, ?_, ?_, fun _ => ⟨rfl, rfl⟩⟩
          · intro es' st' hsome hloop
            cases hsome
            rw [hlp] at hloop
            cases hloop
          · intro hnone
            cases hnone
        · replace hup : env.failUpload fid = false := by simpa using hup
          rw [if_neg (by simp [hup])]
          refine ⟨?_, ?_, ?_, ?_⟩
          · intro _
            exact ⟨es, st, rfl, hlp, hrem, hup, rfl, rfl⟩
          · intro es' st' hsome hloop
            cases hsome
            rw [hlp] at hloop
            cases hloop
          · intro hnone
            cases hnone
          · intro hup'
            rw [hup] at hup'
            cases hup'
      · replace hrem : st.removed = false := by simpa using hrem
        rw [if_neg (by simp [hrem])]
        have hmc : st.matchCount = 0 := by
          have := zipLoop_removedFalse env zname creator es es (zipInit m) st hlp hrem
          simpa [zipInit] using this.2.1
        refine ⟨fun hne => absurd rfl hne, ?_, ?_, fun _ => ⟨by simpa using hmc, rfl⟩⟩
        · intro es' st' hsome hloop
          cases hsome
          rw [hlp] at hloop
          cases hloop
        · intro hnone
          cases hnone

/-- Orchestrator environment whose local write fails, used to witness
C9's exception path. -/
def orchEnvFailWrite : OrchEnv :=
  { dq := fun d => if d == [1] then (some ("PD-Z"),
      some { left := 0, top := 0, width := 4, height := 4 }) else (none, none)
    exif := fun _ => (("Unknown"), ("Unknown"))
    thumbs := fun q _ _ => (some (thumbsPath q ("_thumb.jpg")),
      some (thumbsPath q ("_qr.jpg")))
    failWrite := fun _ => true
    failUpload := fun _ => false
    nowStr := ("2024-06-01T12:00:00") }

def remoteOneZip : Remote :=
  [(("fz"), RemoteObj.arch [{ filename := ("x.jpg"), data := [1] }])]

/-- Witness for C9: with a failing local write, the matched entry raises
mid-loop; `process_zip` returns 0 and the remote archive is unchanged. -/
theorem C9_zip_upload_atomicity_witness :
    (process_zip orchEnvFailWrite remoteOneZip ("fz") ("batch.zip") []
        ("Ann")).2.2.1 = 0 ∧
    (process_zip orchEnvFailWrite remoteOneZip ("fz") ("batch.zip") []
        ("Ann")).2.1 = remoteOneZip :=
  (C9_zip_upload_atomicity orchEnvFailWrite remoteOneZip ("fz") ("batch.zip")
      [] ("Ann")).2.1
    [{ filename := ("x.jpg"), data := [1] }] (zipInit []) rfl (by rfl)

theorem zipLoop_split_at (env : OrchEnv) (zname creator : String)
    (A : List ZEntry) (st₀ stF : ZipState) (k : Nat) (hk : k < A.length)
    (hloop : zipLoop env zname creator A A st₀ = Except.ok stF) :
    ∀ stK, zipLoop env zname creator A (A.take k) st₀ = Except.ok stK →
      ∃ st2, zipStep env zname creator A stK (A.get ⟨k, hk⟩) = Except.ok st2 ∧
        zipLoop env zname creator A (A.drop (k + 1)) st2 = Except.ok stF := by
  intro stK hK
  have hdecomp : A.take k ++ A.get ⟨k, hk⟩ :: A.drop (k + 1) = A := by
    rw [List.get_eq_getElem, ← List.drop_eq_getElem_cons hk,
      List.take_append_drop]
  have hsplit : zipLoop env zname creator A
      (A.take k ++ A.get ⟨k, hk⟩ :: A.drop (k + 1)) st₀ = Except.ok stF := by
    rw [hdecomp]
    exact hloop
  rw [zipLoop_append, hK] at hsplit
  simp only [zipLoop] at hsplit
  cases hstep : zipStep env zname creator A stK (A.get ⟨k, hk⟩) with
  | ok st2 =>
    rw [hstep] at hsplit
    exact ⟨st2, rfl, hsplit⟩
  | error st2 =>
    rw [hstep] at hsplit
    cases hsplit

theorem process_zip_mapping_of_ok (env : OrchEnv) (remote : Remote)
    (fid zname : String) (m : Mapping) (creator : String)
    (es : List ZEntry) (stF : ZipState)
    (hA : lookupArch remote fid = some es)
    (hloop : zipLoop env zname creator es es (zipInit m) = Except.ok stF) :
    (process_zip env remote fid zname m creator).1 = stF.mapping := by
  unfold process_zip
  rw [hA]
  dsimp only
  rw [hloop]
  dsimp only
  split
  · split <;> rfl
  · rfl

/-- Claim C4: the rewritten archive produced by `process_zip`.
Under well-formedness of the input archive (member names unique,
directory members carry no bytes) and with local writes succeeding, the
entry loop completes, and:
(a) directory and non-image members are copied through unchanged;
(b) at each position `k`, an image member that is already matched by
filename against the store at that point, or whose bytes decode to a
truthy identifier, is omitted from the rewritten archive — no entry of
that name survives — while an image member that is neither captured nor
decodable is kept unchanged;
(c) every entry of the resulting store is either untouched from the
input store or carries `source_zip = file_name` as provenance and no
bare `drive_id`. -/
theorem C4_zip_rewrite (env : OrchEnv) (remote : Remote)
    (fid zname : String) (m : Mapping) (creator : String) (A : List ZEntry)
    (hA : lookupArch remote fid = some A)
    (hNames : (A.map (fun e => e.filename)).Nodup)
    (hDirs : ∀ e ∈ A, isDirE e = true → e.data = [])
    (hW : ∀ p, env.failWrite p = false) :
    ∃ stF, zipLoop env zname creator A A (zipInit m) = Except.ok stF ∧
      (process_zip env remote fid zname m creator).1 = stF.mapping ∧
      (∀ e ∈ A, isDirE e = true → e ∈ stF.newArch) ∧
      (∀ e ∈ A, isDirE e = false → isImageName e.filename = false →
        e ∈ stF.newArch) ∧
      (∀ k, ∀ hk : k < A.length, ∀ stK,
        zipLoop env zname creator A (A.take k) (zipInit m) = Except.ok stK →
        isDirE (A.get ⟨k, hk⟩) = false →
        isImageName (A.get ⟨k, hk⟩).filename = true →
        ((capturedBy stK.mapping (A.get ⟨k, hk⟩).filename = true ∨
            truthy (env.dq (A.get ⟨k, hk⟩).data).1 = true) →
          ∀ x ∈ stF.newArch, x.filename ≠ (A.get ⟨k, hk⟩).filename) ∧
        ((capturedBy stK.mapping (A.get ⟨k, hk⟩).filename = false ∧
            truthy (env.dq (A.get ⟨k, hk⟩).data).1 = false) →
          A.get ⟨k, hk⟩ ∈ stF.newArch)) ∧
      (∀ q e', dictGet stF.mapping q = some e' →
        dictGet m q = some e' ∨
        (e'.source_zip = some zname ∧ e'.drive_id = none)) := by
  obtain ⟨stF, hloop⟩ :=
    zipLoop_ok env zname creator A hW A (fun e he => he) (zipInit m)
  have hNodupA : A.Nodup := List.Nodup.of_map (fun e => e.filename) hNames
  refine ⟨stF, hloop, process_zip_mapping_of_ok env remote fid zname m creator
    A stF hA hloop, ?_, ?_, ?_, ?_⟩
  · -- directories copied through
    intro e he hd
    obtain ⟨l1, l2, hdec⟩ := List.append_of_mem he
    have hsplit : zipLoop env zname creator A (l1 ++ e :: l2) (zipInit m) =
        Except.ok stF := by rw [← hdec]; exact hloop
    rw [zipLoop_append] at hsplit
    cases h1 : zipLoop env zname creator A l1 (zipInit m) with
    | error st1 => rw [h1] at hsplit; cases hsplit
    | ok st1 =>
      rw [h1] at hsplit
      simp only [zipLoop, zipStep_eq_dir env zname creator A st1 e hd] at hsplit
      have hmem : (⟨e.filename, []⟩ : ZEntry) ∈
          ({ st1 with newArch := st1.newArch ++ [⟨e.filename, []⟩] } :
            ZipState).newArch := by
        simp
      have := zipLoop_newArch_mono env zname creator A l2 _ _ hmem
      rw [hsplit] at this
      dsimp [exceptState] at this
      have he2 : (⟨e.filename, []⟩ : ZEntry) = e := by
        cases e with
        | mk fn dt =>
          have : dt = [] := hDirs _ he hd
          simp [this]
      rwa [he2] at this
  · -- non-image members copied through with their own bytes
    intro e he hd hi
    obtain ⟨l1, l2, hdec⟩ := List.append_of_mem he
    have hsplit : zipLoop env zname creator A (l1 ++ e :: l2) (zipInit m) =
        Except.ok stF := by rw [← hdec]; exact hloop
    rw [zipLoop_append] at hsplit
    cases h1 : zipLoop env zname creator A l1 (zipInit m) with
    | error st1 => rw [h1] at hsplit; cases hsplit
    | ok st1 =>
      rw [h1] at hsplit
      have hr : readName A e.filename = some e.data := readName_nodup A e hNames he
      simp only [zipLoop,
        zipStep_eq_nonImage env zname creator A st1 e e.data hd hi hr] at hsplit
      have hmem : (⟨e.filename, e.data⟩ : ZEntry) ∈
          ({ st1 with newArch := st1.newArch ++ [⟨e.filename, e.data⟩] } :
            ZipState).newArch := by
        simp
      have := zipLoop_newArch_mono env zname creator A l2 _ _ hmem
      rw [hsplit] at this
      dsimp [exceptState] at this
      exact this
  · -- image members: omitted vs kept, per position
    intro k hk stK hK hd hi
    obtain ⟨st2, hstep, htail⟩ :=
      zipLoop_split_at env zname creator A (zipInit m) stF k hk hloop stK hK
    have hmemA : A.get ⟨k, hk⟩ ∈ A := List.get_mem A k hk
    have hr : readName A (A.get ⟨k, hk⟩).filename = some (A.get ⟨k, hk⟩).data :=
      readName_nodup A _ hNames hmemA
    constructor
    · -- omitted: no surviving entry carries this name
      intro hcond x hx hxn
      -- the step at position k appends nothing to the archive
      have harch2 : st2.newArch = stK.newArch := by
        rcases hcond with hc | ht
        · rw [zipStep_eq_captured env zname creator A stK _ hd hi hc] at hstep
          cases hstep
          rfl
        · by_cases hc : capturedBy stK.mapping (A.get ⟨k, hk⟩).filename = true
          · rw [zipStep_eq_captured env zname creator A stK _ hd hi hc] at hstep
            cases hstep
            rfl
          · replace hc : capturedBy stK.mapping (A.get ⟨k, hk⟩).filename = false := by
              simpa using hc
            rw [zipStep_eq_match env zname creator A stK _ _ hd hi hc hr ht
              (hW _)] at hstep
            cases hstep
            rfl
      -- names in the final archive come from the initial archive or the
      -- processed segments
      have htailnames := zipLoop_newArch_names env zname creator A
        (A.drop (k + 1)) st2 st2.newArch (fun y hy => Or.inl hy)
      rw [htail] at htailnames
      dsimp [exceptState] at htailnames
      rcases htailnames x hx with hx2 | ⟨e', he', hfn⟩
      · rw [harch2] at hx2
        have hheadnames := zipLoop_newArch_names env zname creator A
          (A.take k) (zipInit m) [] (by intro y hy; cases hy)
        rw [hK] at hheadnames
        dsimp [exceptState] at hheadnames
        rcases hheadnames x hx2 with hx3 | ⟨e', he', hfn⟩
        · cases hx3
        · have heq : e' = A.get ⟨k, hk⟩ := by
            refine List.inj_on_of_nodup_map hNames
              (List.mem_of_mem_take he') hmemA ?_
            rw [← hfn, hxn]
          -- e' sits strictly before position k, contradicting Nodup
          have hdecomp : A.take k ++ A.get ⟨k, hk⟩ :: A.drop (k + 1) = A := by
            rw [List.get_eq_getElem, ← List.drop_eq_getElem_cons hk,
              List.take_append_drop]
          have hnd := hNodupA
          rw [← hdecomp] at hnd
          have hdisj := List.disjoint_of_nodup_append hnd
          exact hdisj (heq ▸ he') (List.mem_cons_self _ _)
      · have heq : e' = A.get ⟨k, hk⟩ := by
          refine List.inj_on_of_nodup_map hNames
            (List.mem_of_mem_drop he') hmemA ?_
          rw [← hfn, hxn]
        have hdecomp : A.take k ++ A.get ⟨k, hk⟩ :: A.drop (k + 1) = A := by
          rw [List.get_eq_getElem, ← List.drop_eq_getElem_cons hk,
            List.take_append_drop]
        have hnd := hNodupA
        rw [← hdecomp] at hnd
        have hadp := (List.nodup_append.mp hnd).2.1
        rw [List.nodup_cons] at hadp
        exact hadp.1 (heq ▸ he')
    · -- kept: the member survives with its own bytes
      intro ⟨hc, ht⟩
      rw [zipStep_eq_keep env zname creator A stK _ _ hd hi hc hr ht] at hstep
      cases hstep
      have hmem : (⟨(A.get ⟨k, hk⟩).filename, (A.get ⟨k, hk⟩).data⟩ : ZEntry) ∈
          ({ stK with newArch := stK.newArch ++
            [⟨(A.get ⟨k, hk⟩).filename, (A.get ⟨k, hk⟩).data⟩] } :
            ZipState).newArch := by
        simp
      have := zipLoop_newArch_mono env zname creator A (A.drop (k + 1)) _ _ hmem
      rw [htail] at this
      dsimp [exceptState] at this
      exact this
  · -- provenance of new or replaced store entries
    intro q e' hq
    have := zipLoop_provenance env zname creator A m A (zipInit m)
      (fun q₀ e₀ h₀ => Or.inl h₀) q e'
    rw [hloop] at this
    dsimp [exceptState] at this
    exact this hq

/-- Concrete ZIP-scenario environment for the C4 witness: bytes `[1]`
decode to a fresh identifier, bytes `[2]` do not decode. -/
def orchEnvZip : OrchEnv :=
  { dq := fun d => if d == [1] then (some ("PD-N"),
      some { left := 0, top := 0, width := 4, height := 4 }) else (none, none)
    exif := fun _ => (("Unknown"), ("Unknown"))
    thumbs := fun q _ _ => (some (thumbsPath q ("_thumb.jpg")),
      some (thumbsPath q ("_qr.jpg")))
    failWrite := fun _ => false
    failUpload := fun _ => false
    nowStr := ("2024-06-01T12:00:00") }

/-- A store already holding an entry whose filename matches `dup.jpg`. -/
def mapOld : Mapping :=
  [(("PD-OLD"),
    { filename := some ("dup.jpg"), drive_id := some ("f0") : Entry })]

/-- Archive with one already-captured image, one new matchable image,
one non-matching image, one non-image member and one directory. -/
def archA : List ZEntry :=
  [{ filename := ("dup.jpg"), data := [9] },
   { filename := ("new.jpg"), data := [1] },
   { filename := ("keep.jpg"), data := [2] },
   { filename := ("notes.txt"), data := [7] },
   { filename := ("sub/"), data := [] }]

def remoteZ4 : Remote := [(("fz4"), RemoteObj.arch archA)]

/-- Witness for C4 at the concrete five-member archive. -/
theorem C4_zip_rewrite_witness :
    ∃ stF, zipLoop orchEnvZip ("b.zip") ("Ann") archA archA (zipInit mapOld) =
        Except.ok stF ∧
      (process_zip orchEnvZip remoteZ4 ("fz4") ("b.zip") mapOld ("Ann")).1 =
        stF.mapping ∧
      (∀ e ∈ archA, isDirE e = true → e ∈ stF.newArch) ∧
      (∀ e ∈ archA, isDirE e = false → isImageName e.filename = false →
        e ∈ stF.newArch) ∧
      (∀ k, ∀ hk : k < archA.length, ∀ stK,
        zipLoop orchEnvZip ("b.zip") ("Ann") archA (archA.take k)
          (zipInit mapOld) = Except.ok stK →
        isDirE (archA.get ⟨k, hk⟩) = false →
        isImageName (archA.get ⟨k, hk⟩).filename = true →
        ((capturedBy stK.mapping (archA.get ⟨k, hk⟩).filename = true ∨
            truthy (orchEnvZip.dq (archA.get ⟨k, hk⟩).data).1 = true) →
          ∀ x ∈ stF.newArch, x.filename ≠ (archA.get ⟨k, hk⟩).filename) ∧
        ((capturedBy stK.mapping (archA.get ⟨k, hk⟩).filename = false ∧
            truthy (orchEnvZip.dq (archA.get ⟨k, hk⟩).data).1 = false) →
          archA.get ⟨k, hk⟩ ∈ stF.newArch)) ∧
      (∀ q e', dictGet stF.mapping q = some e' →
        dictGet mapOld q = some e' ∨
        (e'.source_zip = some ("b.zip") ∧ e'.drive_id = none)) :=
  C4_zip_rewrite orchEnvZip remoteZ4 ("fz4") ("b.zip") mapOld ("Ann") archA
    rfl (by decide) (by decide) (fun p => rfl)

theorem folderStep_eq_zip (env : OrchEnv) (st : FolderSt) (a : AssetDesc)
    (hz : a.isZip = true) :
    folderStep env st a =
      { mapping := (process_zip env st.remote a.fid a.name st.mapping
          (a.owner.getD ("Unknown"))).1,
        remote := (process_zip env st.remote a.fid a.name st.mapping
          (a.owner.getD ("Unknown"))).2.1,
        matchCount := st.matchCount + (process_zip env st.remote a.fid a.name
          st.mapping (a.owner.getD ("Unknown"))).2.2.1,
        trace := st.trace ++ (process_zip env st.remote a.fid a.name
          st.mapping (a.owner.getD ("Unknown"))).2.2.2 } := by
  unfold folderStep
  rw [if_pos hz]

theorem folderStep_eq_skip (env : OrchEnv) (st : FolderSt) (a : AssetDesc)
    (hz : a.isZip = false)
    (hs : st.mapping.any (fun p => p.2.drive_id == some a.fid) = true) :
    folderStep env st a = st := by
  unfold folderStep
  rw [if_neg (by simp [hz]), if_pos hs]

theorem folderStep_eq_fetchNone (env : OrchEnv) (st : FolderSt) (a : AssetDesc)
    (hz : a.isZip = false)
    (hs : st.mapping.any (fun p => p.2.drive_id == some a.fid) = false)
    (hf : lookupBytes st.remote a.fid = none) :
    folderStep env st a = { st with trace := st.trace ++ [Ev.download a.fid] } := by
  unfold folderStep
  rw [if_neg (by simp [hz]), if_neg (by simp [hs])]
  simp only [hf]

theorem folderStep_eq_noMatch (env : OrchEnv) (st : FolderSt) (a : AssetDesc)
    (d : Bytes) (hz : a.isZip = false)
    (hs : st.mapping.any (fun p => p.2.drive_id == some a.fid) = false)
    (hf : lookupBytes st.remote a.fid = some d)
    (ht : truthy (env.dq d).1 = false) :
    folderStep env st a = { st with trace := st.trace ++ [Ev.download a.fid] } := by
  unfold folderStep
  rw [if_neg (by simp [hz]), if_neg (by simp [hs])]
  simp only [hf]
  rw [if_neg (by simp [ht])]

theorem folderStep_eq_writeFail (env : OrchEnv) (st : FolderSt) (a : AssetDesc)
    (d : Bytes) (hz : a.isZip = false)
    (hs : st.mapping.any (fun p => p.2.drive_id == some a.fid) = false)
    (hf : lookupBytes st.remote a.fid = some d)
    (ht : truthy (env.dq d).1 = true)
    (hw : env.failWrite (imagesPath (qid env d)) = true) :
    folderStep env st a = { st with trace := st.trace ++ [Ev.download a.fid] } := by
  unfold folderStep
  rw [if_neg (by simp [hz]), if_neg (by simp [hs])]
  simp only [hf]
  rw [if_pos ht, if_pos hw]

theorem folderStep_eq_match (env : OrchEnv) (st : FolderSt) (a : AssetDesc)
    (d : Bytes) (hz : a.isZip = false)
    (hs : st.mapping.any (fun p => p.2.drive_id == some a.fid) = false)
    (hf : lookupBytes st.remote a.fid = some d)
    (ht : truthy (env.dq d).1 = true)
    (hw : env.failWrite (imagesPath (qid env d)) = false) :
    folderStep env st a =
      { st with
        mapping := dictSet st.mapping (qid env d)
          (folderEntry env a (a.owner.getD ("Unknown")) d),
        matchCount := st.matchCount + 1,
        trace := st.trace ++ [Ev.download a.fid, Ev.matched (qid env d)] } := by
  unfold folderStep
  rw [if_neg (by simp [hz]), if_neg (by simp [hs])]
  simp only [hf]
  rw [if_pos ht, if_neg (by simp [hw])]

theorem process_zip_trace_events (env : OrchEnv) (remote : Remote)
    (fid zname : String) (m : Mapping) (creator : String) :
    ∀ ev ∈ (process_zip env remote fid zname m creator).2.2.2,
      ev = Ev.download fid ∨ ∃ q, ev = Ev.matched q := by
  unfold process_zip
  cases hla : lookupArch remote fid with
  | none =>
    intro ev hev
    simp only [List.mem_singleton] at hev
    exact Or.inl hev
  | some es =>
    dsimp only
    have hte := zipLoop_trace_events env zname creator es [] es (zipInit m)
      (fun ev hev => absurd hev (List.not_mem_nil ev))
    cases hlp : zipLoop env zname creator es es (zipInit m) with
    | error st =>
      rw [hlp] at hte
      dsimp [exceptState] at hte
      intro ev hev
      rcases List.mem_cons.mp hev with rfl | hev2
      · exact Or.inl rfl
      · rcases hte ev hev2 with h | h
        · cases h
        · exact Or.inr h
    | ok st =>
      rw [hlp] at hte
      dsimp [exceptState] at hte
      have htr : (if st.removed = true then
          (if env.failUpload fid = true then
            (st.mapping, remote, 0, Ev.download fid :: st.trace)
          else (st.mapping, setArch remote fid st.newArch, st.matchCount,
            Ev.download fid :: st.trace))
        else (st.mapping, remote, st.matchCount,
          Ev.download fid :: st.trace)).2.2.2 = Ev.download fid :: st.trace := by
        split
        · split <;> rfl
        · rfl
      rw [htr]
      intro ev hev
      rcases List.mem_cons.mp hev with rfl | hev2
      · exact Or.inl rfl
      · rcases hte ev hev2 with h | h
        · cases h
        · exact Or.inr h

theorem folderStep_trace_events (env : OrchEnv) (st : FolderSt)
    (a : AssetDesc) :
    ∀ ev ∈ (folderStep env st a).trace,
      ev ∈ st.trace ∨ ev = Ev.download a.fid ∨ ∃ q, ev = Ev.matched q := by
  by_cases hz : a.isZip = true
  · rw [folderStep_eq_zip env st a hz]
    intro ev hev
    dsimp at hev
    rcases List.mem_append.mp hev with h | h
    · exact Or.inl h
    · exact Or.inr (process_zip_trace_events env st.remote a.fid a.name
        st.mapping (a.owner.getD ("Unknown")) ev h)
  · replace hz : a.isZip = false := by simpa using hz
    by_cases hs : st.mapping.any (fun p => p.2.drive_id == some a.fid) = true
    · rw [folderStep_eq_skip env st a hz hs]
      exact fun ev hev => Or.inl hev
    · replace hs : st.mapping.any (fun p => p.2.drive_id == some a.fid) = false := by
        simpa using hs
      cases hf : lookupBytes st.remote a.fid with
      | none =>
        rw [folderStep_eq_fetchNone env st a hz hs hf]
        intro ev hev
        dsimp at hev
        rcases List.mem_append.mp hev with h | h
        · exact Or.inl h
        · simp only [List.mem_singleton] at h
          exact Or.inr (Or.inl h)
      | some d =>
        by_cases ht : truthy (env.dq d).1 = true
        · by_cases hw : env.failWrite (imagesPath (qid env d)) = true
          · rw [folderStep_eq_writeFail env st a d hz hs hf ht hw]
            intro ev hev
            dsimp at hev
            rcases List.mem_append.mp hev with h | h
            · exact Or.inl h
            · simp only [List.mem_singleton] at h
              exact Or.inr (Or.inl h)
          · replace hw : env.failWrite (imagesPath (qid env d)) = false := by
              simpa using hw
            rw [folderStep_eq_match env st a d hz hs hf ht hw]
            intro ev hev
            dsimp at hev
            rcases List.mem_append.mp hev with h | h
            · exact Or.inl h
            · rcases List.mem_cons.mp h with rfl | h2
              · exact Or.inr (Or.inl rfl)
              · simp only [List.mem_singleton] at h2
                exact Or.inr (Or.inr ⟨qid env d, h2⟩)
        · replace ht : truthy (env.dq d).1 = false := by simpa using ht
          rw [folderStep_eq_noMatch env st a d hz hs hf ht]
          intro ev hev
          dsimp at hev
          rcases List.mem_append.mp hev with h | h
          · exact Or.inl h
          · simp only [List.mem_singleton] at h
            exact Or.inr (Or.inl h)

theorem process_folder_foldl_no_save (env : OrchEnv) :
    ∀ (l : List AssetDesc) (st : FolderSt), Ev.save ∉ st.trace →
      Ev.save ∉ (l.foldl (folderStep env) st).trace := by
  intro l
  induction l with
  | nil => intro st h; exact h
  | cons a rest ih =>
    intro st h
    refine ih (folderStep env st a) ?_
    intro hmem
    rcases folderStep_trace_events env st a Ev.save hmem with h1 | h1 | ⟨q, h1⟩
    · exact h h1
    · cases h1
    · cases h1

theorem wellSaved_cons_true (e : Ev) (t : List Ev)
    (he : (match e, t with
      | Ev.persisted _, Ev.save :: _ => true
      | Ev.persisted _, _ => false
      | _, _ => true) = true)
    (ht : wellSaved t = true) : wellSaved (e :: t) = true := by
  unfold wellSaved
  rw [he, ht]
  rfl

theorem wellSaved_append : ∀ t b : List Ev, wellSaved t = true →
    wellSaved b = true → wellSaved (t ++ b) = true := by
  intro t
  induction t with
  | nil => intro b _ hb; exact hb
  | cons e t' ih =>
    intro b ht hb
    unfold wellSaved at ht
    rw [Bool.and_eq_true] at ht
    have ht' := ih b ht.2 hb
    refine wellSaved_cons_true e (t' ++ b) ?_ ht'
    cases e with
    | persisted q =>
      cases t' with
      | nil => cases ht.1
      | cons e2 t'' =>
        cases e2 <;> simp_all
    | download u => rfl
    | matched q => rfl
    | save => rfl

/-- The state carried by either outcome of the album loop. -/
def exceptAState : Except AlbumSt AlbumSt → AlbumSt
  | Except.ok st => st
  | Except.error st => st

/-- Each iteration of `sync_album` extends the trace by a block in which
any `persisted` event is immediately followed by the store save. -/
theorem albumStep_trace (env : AlbumEnv) (an : String) (st : AlbumSt)
    (item : MediaItem) :
    ∃ b, (exceptAState (albumStep env an st item)).trace = st.trace ++ b ∧
      wellSaved b = true := by
  unfold albumStep
  by_cases hsk : st.mapping.any (fun p => p.2.google_id == item.gid) = true
  · rw [if_pos hsk]
    exact ⟨[], by simp [exceptAState], rfl⟩
  · rw [if_neg (by simp [hsk])]
    dsimp only
    cases hdl : env.download (item.baseUrl ++ ("=w1000")) with
    | none =>
      exact ⟨[Ev.download (item.baseUrl ++ ("=w1000"))], rfl, rfl⟩
    | some bs =>
      dsimp only
      cases hdq : env.dqF bs with
      | error e =>
        exact ⟨[Ev.download (item.baseUrl ++ ("=w1000"))], rfl, rfl⟩
      | ok qro =>
        dsimp only
        by_cases hq : truthy qro = true
        · rw [if_pos hq]
          cases hdl2 : env.download (item.baseUrl ++ ("=d")) with
          | none =>
            refine ⟨[Ev.download (item.baseUrl ++ ("=w1000")),
              Ev.matched (qro.getD ("")), Ev.download (item.baseUrl ++ ("=d"))],
              ?_, rfl⟩
            dsimp [exceptAState]
            simp
          | some bs2 =>
            refine ⟨[Ev.download (item.baseUrl ++ ("=w1000")),
              Ev.matched (qro.getD ("")), Ev.download (item.baseUrl ++ ("=d")),
              Ev.persisted (qro.getD ("")), Ev.save], ?_, rfl⟩
            dsimp [exceptAState]
            simp
        · rw [if_neg (by simp [hq])]
          exact ⟨[Ev.download (item.baseUrl ++ ("=w1000"))], rfl, rfl⟩

theorem albumLoop_wellSaved (env : AlbumEnv) (an : String) :
    ∀ (items : List MediaItem) (st : AlbumSt), wellSaved st.trace = true →
      wellSaved (exceptAState (albumLoop env an items st)).trace = true := by
  intro items
  induction items with
  | nil => intro st h; exact h
  | cons item rest ih =>
    intro st h
    simp only [albumLoop]
    obtain ⟨b, hb, hwb⟩ := albumStep_trace env an st item
    cases hstep : albumStep env an st item with
    | ok st' =>
      refine ih st' ?_
      rw [hstep] at hb
      dsimp [exceptAState] at hb
      rw [hb]
      exact wellSaved_append st.trace b h hwb
    | error st' =>
      rw [hstep] at hb
      dsimp [exceptAState] at hb
      show wellSaved (exceptAState (Except.error st')).trace = true
      dsimp [exceptAState]
      rw [hb]
      exact wellSaved_append st.trace b h hwb

/-- Concrete two-image source: both assets carry decodable QR codes. -/
def orchEnvTwoImgs : OrchEnv :=
  { dq := fun d =>
      if d == [1] then (some ("PD-A"),
        some { left := 0, top := 0, width := 4, height := 4 })
      else if d == [2] then (some ("PD-B"),
        some { left := 0, top := 0, width := 4, height := 4 })
      else (none, none)
    exif := fun _ => (("Unknown"), ("Unknown"))
    thumbs := fun q _ _ => (some (thumbsPath q ("_thumb.jpg")),
      some (thumbsPath q ("_qr.jpg")))
    failWrite := fun _ => false
    failUpload := fun _ => false
    nowStr := ("2024-06-01T12:00:00") }

def listingTwo : List AssetDesc :=
  [{ fid := ("f1"), name := ("a.jpg"), created := some ("t1"),
     owner := some ("Ann"), isZip := false },
   { fid := ("f2"), name := ("b.jpg"), created := some ("t2"),
     owner := some ("Ann"), isZip := false }]

def remoteTwo : Remote :=
  [(("f1"), RemoteObj.bytes [1]), (("f2"), RemoteObj.bytes [2])]

/-- Claim C3 counterexample: a run of `process_folder` over two
matchable images makes two matches but performs no store save at all —
in particular there is no save between the first and the second match,
so a crash after the first match loses it. -/
theorem C3_no_save_between_matches :
    (process_folder orchEnvTwoImgs listingTwo remoteTwo []).matchCount = 2 ∧
    Ev.save ∉ (process_folder orchEnvTwoImgs listingTwo remoteTwo []).trace := by
  constructor
  · rfl
  · decide

/-- Claim C3 (amended): the Drive orchestrator `process_folder` never
saves the Mapping Store during a run (the store is written once by
`main`, after all folders); only the legacy `sync_album` variant saves
immediately — there, every `persisted` entry (a match whose original
download succeeded) is immediately followed by a store save, before the
next item. -/
theorem C3_per_match_save_contract :
    (∀ (env : OrchEnv) (listing : List AssetDesc) (remote : Remote)
      (m : Mapping), Ev.save ∉ (process_folder env listing remote m).trace) ∧
    (∀ (env : AlbumEnv) (an : String) (items : List MediaItem)
      (m : List (String × AEntry)),
      wellSaved (sync_album env an items m).trace = true) := by
  constructor
  · intro env listing remote m
    exact process_folder_foldl_no_save env listing
      { mapping := m, remote := remote, matchCount := 0, trace := [] }
      (List.not_mem_nil Ev.save)
  · intro env an items m
    have := albumLoop_wellSaved env an items { mapping := m, trace := [] } rfl
    unfold sync_album
    cases h : albumLoop env an items { mapping := m, trace := [] } with
    | ok st => rw [h] at this; exact this
    | error st => rw [h] at this; exact this

def albumEnvW : AlbumEnv :=
  { download := fun _ => some [1]
    dqF := fun _ => Except.ok (some ("PD-W")) }

def itemW : MediaItem :=
  { filename := ("w.jpg"), baseUrl := ("https://ph/base"), gid := ("g1"),
    creation := none }

/-- Witness for the amended C3 at a concrete album containing one
matched and mirrored item. -/
theorem C3_per_match_save_contract_witness :
    wellSaved (sync_album albumEnvW ("CODICUM MPO") [itemW] []).trace = true :=
  C3_per_match_save_contract.2 albumEnvW ("CODICUM MPO") [itemW] []

theorem process_zip_goodKeys (env : OrchEnv) (remote : Remote)
    (fid zname : String) (m : Mapping) (creator : String)
    (h1 : ∀ p ∈ m, p.1 ≠ "") (h2 : (m.map (fun p => p.1)).Nodup) :
    (∀ p ∈ (process_zip env remote fid zname m creator).1, p.1 ≠ "") ∧
    ((process_zip env remote fid zname m creator).1.map
      (fun p => p.1)).Nodup := by
  unfold process_zip
  cases hla : lookupArch remote fid with
  | none => exact ⟨h1, h2⟩
  | some es =>
    dsimp only
    have := zipLoop_goodKeys env zname creator es es (zipInit m) h1 h2
    cases hlp : zipLoop env zname creator es es (zipInit m) with
    | error st =>
      rw [hlp] at this
      dsimp [exceptState] at this
      exact this
    | ok st =>
      rw [hlp] at this
      dsimp [exceptState] at this
      have hm : (if st.removed = true then
          (if env.failUpload fid = true then
            (st.mapping, remote, 0, Ev.download fid :: st.trace)
          else (st.mapping, setArch remote fid st.newArch, st.matchCount,
            Ev.download fid :: st.trace))
        else (st.mapping, remote, st.matchCount,
          Ev.download fid :: st.trace)).1 = st.mapping := by
        split
        · split <;> rfl
        · rfl
      rw [hm]
      exact this

theorem process_folder_goodKeys (env : OrchEnv) :
    ∀ (l : List AssetDesc) (st : FolderSt),
      (∀ p ∈ st.mapping, p.1 ≠ "") →
      ((st.mapping.map (fun p => p.1)).Nodup) →
      (∀ p ∈ (l.foldl (folderStep env) st).mapping, p.1 ≠ "") ∧
      (((l.foldl (folderStep env) st).mapping.map (fun p => p.1)).Nodup) := by
  intro l
  induction l with
  | nil => intro st h1 h2; exact ⟨h1, h2⟩
  | cons a rest ih =>
    intro st h1 h2
    have hstep : (∀ p ∈ (folderStep env st a).mapping, p.1 ≠ "") ∧
        (((folderStep env st a).mapping.map (fun p => p.1)).Nodup) := by
      by_cases hz : a.isZip = true
      · rw [folderStep_eq_zip env st a hz]
        exact process_zip_goodKeys env st.remote a.fid a.name st.mapping
          (a.owner.getD ("Unknown")) h1 h2
      · replace hz : a.isZip = false := by simpa using hz
        by_cases hs : st.mapping.any (fun p => p.2.drive_id == some a.fid) = true
        · rw [folderStep_eq_skip env st a hz hs]
          exact ⟨h1, h2⟩
        · replace hs : st.mapping.any
              (fun p => p.2.drive_id == some a.fid) = false := by simpa using hs
          cases hf : lookupBytes st.remote a.fid with
          | none =>
            rw [folderStep_eq_fetchNone env st a hz hs hf]
            exact ⟨h1, h2⟩
          | some d =>
            by_cases ht : truthy (env.dq d).1 = true
            · by_cases hw : env.failWrite (imagesPath (qid env d)) = true
              · rw [folderStep_eq_writeFail env st a d hz hs hf ht hw]
                exact ⟨h1, h2⟩
              · replace hw : env.failWrite (imagesPath (qid env d)) = false := by
                  simpa using hw
                rw [folderStep_eq_match env st a d hz hs hf ht hw]
                exact ⟨dictSet_fst_ne st.mapping (qid env d) _ h1
                    (qid_ne_empty env d ht),
                  dictSet_nodup_keys st.mapping (qid env d) _ h2⟩
            · replace ht : truthy (env.dq d).1 = false := by simpa using ht
              rw [folderStep_eq_noMatch env st a d hz hs hf ht]
              exact ⟨h1, h2⟩
    exact ih (folderStep env st a) hstep.1 hstep.2

/-- Claim C5 (amended): across any run of the orchestrator, Mapping
Store keys stay non-empty (an asset decoding to a falsy identifier is
treated as a non-match) and unique (it is a dict).  The first-wins part
of the original claim is false — see the counterexample. -/
theorem C5_store_keys_invariant (env : OrchEnv) (listing : List AssetDesc)
    (remote : Remote) (m : Mapping)
    (h1 : ∀ p ∈ m, p.1 ≠ "") (h2 : (m.map (fun p => p.1)).Nodup) :
    (∀ p ∈ (process_folder env listing remote m).mapping, p.1 ≠ "") ∧
    (((process_folder env listing remote m).mapping.map
      (fun p => p.1)).Nodup) :=
  process_folder_goodKeys env listing
    { mapping := m, remote := remote, matchCount := 0, trace := [] } h1 h2

/-- Witness for the amended C5 at the concrete two-image source. -/
theorem C5_store_keys_invariant_witness :
    (∀ p ∈ (process_folder orchEnvTwoImgs listingTwo remoteTwo []).mapping,
      p.1 ≠ "") ∧
    (((process_folder orchEnvTwoImgs listingTwo remoteTwo []).mapping.map
      (fun p => p.1)).Nodup) :=
  C5_store_keys_invariant orchEnvTwoImgs listingTwo remoteTwo []
    (fun p hp => absurd hp (List.not_mem_nil p)) List.nodup_nil

/-- Environment in which two distinct Drive files decode to the same
identifier. -/
def orchEnvDup : OrchEnv :=
  { dq := fun _ => (some ("PD-X"),
      some { left := 0, top := 0, width := 4, height := 4 })
    exif := fun _ => (("Unknown"), ("Unknown"))
    thumbs := fun q _ _ => (some (thumbsPath q ("_thumb.jpg")),
      some (thumbsPath q ("_qr.jpg")))
    failWrite := fun _ => false
    failUpload := fun _ => false
    nowStr := ("2024-06-01T12:00:00") }

/-- Claim C5 counterexample: both assets match (count 2), yet the store
ends with a single entry for `PD-X` whose `drive_id` is the SECOND
file's id — the later asset replaced the first decode's entry, so the
first successful decode does not win. -/
theorem C5_later_asset_replaces_entry :
    (process_folder orchEnvDup listingTwo remoteTwo []).matchCount = 2 ∧
    ((process_folder orchEnvDup listingTwo remoteTwo []).mapping.map
      (fun p => (p.1, p.2.drive_id))) = [(("PD-X"), some ("f2"))] := by
  exact ⟨rfl, rfl⟩

/-- Environment in which no image decodes to a QR identifier. -/
def orchEnvC1 : OrchEnv :=
  { dq := fun _ => (none, none)
    exif := fun _ => (("Unknown"), ("Unknown"))
    thumbs := fun _ _ _ => (none, none)
    failWrite := fun _ => false
    failUpload := fun _ => false
    nowStr := ("2024-06-02T09:00:00") }

def listingC1 : List AssetDesc :=
  [ { fid := ("f1"), name := ("x.jpg"), created := none,
      owner := none, isZip := false },
    { fid := ("fz"), name := ("z.zip"), created := none,
      owner := none, isZip := true } ]

def remoteC1 : Remote :=
  [ (("f1"), RemoteObj.bytes [9]),
    (("fz"), RemoteObj.arch [⟨("a.jpg"), [7]⟩]) ]

/-- Claim C1 counterexample: after a first run that left the store and
the remote unchanged (no matches), the second run — started from
exactly the first run's final store and remote — downloads both the
unmatched plain image and the ZIP archive again. -/
theorem C1_second_run_redownloads :
    (process_folder orchEnvC1 listingC1 remoteC1 []).mapping = [] ∧
    (process_folder orchEnvC1 listingC1 remoteC1 []).remote = remoteC1 ∧
    (process_folder orchEnvC1 listingC1 remoteC1 []).matchCount = 0 ∧
    (process_folder orchEnvC1 listingC1
        (process_folder orchEnvC1 listingC1 remoteC1 []).remote
        (process_folder orchEnvC1 listingC1 remoteC1 []).mapping).trace =
      [Ev.download ("f1"), Ev.download ("fz")] :=
  ⟨rfl, rfl, rfl, rfl⟩

theorem foldl_skip_all (env : OrchEnv) :
    ∀ (l : List AssetDesc) (st : FolderSt),
      (∀ a ∈ l, a.isZip = false ∧
        st.mapping.any (fun p => p.2.drive_id == some a.fid) = true) →
      l.foldl (folderStep env) st = st := by
  intro l
  induction l with
  | nil => intro st _; rfl
  | cons a rest ih =>
    intro st h
    have ha := h a (List.mem_cons_self a rest)
    have hstep : folderStep env st a = st :=
      folderStep_eq_skip env st a ha.1 ha.2
    show List.foldl (folderStep env) (folderStep env st a) rest = st
    rw [hstep]
    exact ih st (fun b hb => h b (List.mem_cons_of_mem a hb))

/-- Claim C1 (amended): the skip check matches only plain Drive files
whose id is already recorded as some entry's `drive_id` — a listing of
entirely such files is fully skipped (no fetch, no match, no state
change).  But ZIP archives are outside the guarantee: `process_zip`
downloads the archive unconditionally, on every run, before scanning
its members. -/
theorem C1_skip_and_refetch :
    (∀ (env : OrchEnv) (listing : List AssetDesc) (remote : Remote)
      (m : Mapping),
      (∀ a ∈ listing, a.isZip = false ∧
        m.any (fun p => p.2.drive_id == some a.fid) = true) →
      process_folder env listing remote m =
        { mapping := m, remote := remote, matchCount := 0, trace := [] }) ∧
    (∀ (env : OrchEnv) (remote : Remote) (fid zname : String) (m : Mapping)
      (creator : String),
      Ev.download fid ∈ (process_zip env remote fid zname m creator).2.2.2) := by
  constructor
  · intro env listing remote m h
    exact foldl_skip_all env listing
      { mapping := m, remote := remote, matchCount := 0, trace := [] } h
  · intro env remote fid zname m creator
    unfold process_zip
    cases hla : lookupArch remote fid with
    | none => exact List.mem_singleton.mpr rfl
    | some es =>
      dsimp only
      cases hlp : zipLoop env zname creator es es (zipInit m) with
      | error st => exact List.mem_cons_self _ _
      | ok st =>
        dsimp only
        by_cases hr : st.removed = true
        · rw [if_pos hr]
          by_cases hu : env.failUpload fid = true
          · rw [if_pos hu]; exact List.mem_cons_self _ _
          · rw [if_neg hu]; exact List.mem_cons_self _ _
        · rw [if_neg hr]; exact List.mem_cons_self _ _

def assetW1 : AssetDesc :=
  { fid := ("f1"), name := ("x.jpg"), created := none,
    owner := none, isZip := false }

def mapW1 : Mapping :=
  [(("PD-1"), { filename := some ("x.jpg"), drive_id := some ("f1") })]

/-- Witness for the amended C1: a recorded plain file is skipped, and a
ZIP download event is emitted by `process_zip`. -/
theorem C1_skip_and_refetch_witness :
    process_folder orchEnvC1 [assetW1] remoteC1 mapW1 =
      { mapping := mapW1, remote := remoteC1, matchCount := 0,
        trace := [] } ∧
    Ev.download ("fz") ∈
      (process_zip orchEnvC1 remoteC1 ("fz") ("z.zip") mapW1
        ("Unknown")).2.2.2 :=
  ⟨C1_skip_and_refetch.1 orchEnvC1 [assetW1] remoteC1 mapW1
      (by
        intro a ha
        rw [List.mem_singleton] at ha
        subst ha
        exact ⟨rfl, rfl⟩),
    C1_skip_and_refetch.2 orchEnvC1 remoteC1 ("fz") ("z.zip") mapW1
      ("Unknown")⟩

/-! ### The spreadsheet mirror (`log_to_gsheet`, lines 88-171)

Cells are strings; the sheet is the list of its rows.  The remote get,
the two update calls and the per-run timestamp are abstracted into the
function's arguments: `rows0` is the sheet content fetched at line 99
and the returned sheet is what the final update (or, when the sort at
line 161 raises on a row shorter than the id column, the already
performed initialization write) leaves remote.  Python's string
comparison — used both by `sorted(mapping.keys())` and by the row sort
key — is code-point lexicographic, embedded as `charsLe`. -/

-- ### byte-wise string order (Python string comparison on code points)

def charsLe : List Char → List Char → Bool
  | [], _ => true
  | _ :: _, [] => false
  | a :: as, b :: bs =>
    if a.toNat < b.toNat then true
    else if b.toNat < a.toNat then false
    else charsLe as bs

def strLe (a b : String) : Prop := charsLe a.data b.data = true

instance : DecidableRel strLe :=
  fun a b => inferInstanceAs (Decidable (charsLe a.data b.data = true))

theorem charsLe_cons_inv {a b : Char} {as bs : List Char}
    (h : charsLe (a :: as) (b :: bs) = true) :
    a.toNat < b.toNat ∨ (a.toNat = b.toNat ∧ charsLe as bs = true) := by
  simp only [charsLe] at h
  rcases Nat.lt_trichotomy a.toNat b.toNat with hh | hh | hh
  · exact Or.inl hh
  · refine Or.inr ⟨hh, ?_⟩
    rwa [if_neg (by omega), if_neg (by omega)] at h
  · rw [if_neg (by omega), if_pos hh] at h
    cases h

theorem charsLe_of_lt {a b : Char} (h : a.toNat < b.toNat)
    (as bs : List Char) : charsLe (a :: as) (b :: bs) = true := by
  simp [charsLe, h]

theorem charsLe_of_eq {a b : Char} (h : a.toNat = b.toNat)
    {as bs : List Char} (hc : charsLe as bs = true) :
    charsLe (a :: as) (b :: bs) = true := by
  simp only [charsLe]
  rw [if_neg (by omega), if_neg (by omega)]
  exact hc

theorem charsLe_total : ∀ (as bs : List Char),
    charsLe as bs = true ∨ charsLe bs as = true := by
  intro as
  induction as with
  | nil => intro bs; exact Or.inl rfl
  | cons a as ih =>
    intro bs
    cases bs with
    | nil => exact Or.inr rfl
    | cons b bs =>
      rcases Nat.lt_trichotomy a.toNat b.toNat with h | h | h
      · exact Or.inl (charsLe_of_lt h as bs)
      · rcases ih bs with hh | hh
        · exact Or.inl (charsLe_of_eq h hh)
        · exact Or.inr (charsLe_of_eq h.symm hh)
      · exact Or.inr (charsLe_of_lt h bs as)

theorem charsLe_trans : ∀ (as bs cs : List Char),
    charsLe as bs = true → charsLe bs cs = true → charsLe as cs = true := by
  intro as
  induction as with
  | nil => intro bs cs _ _; rfl
  | cons a as ih =>
    intro bs cs h1 h2
    cases bs with
    | nil => simp [charsLe] at h1
    | cons b bs =>
      cases cs with
      | nil => simp [charsLe] at h2
      | cons c cs =>
        rcases charsLe_cons_inv h1 with hab | ⟨hab, hab2⟩
        · rcases charsLe_cons_inv h2 with hbc | ⟨hbc, _⟩
          · exact charsLe_of_lt (Nat.lt_trans hab hbc) as cs
          · exact charsLe_of_lt (by omega) as cs
        · rcases charsLe_cons_inv h2 with hbc | ⟨hbc, hbc2⟩
          · exact charsLe_of_lt (by omega) as cs
          · exact charsLe_of_eq (by omega) (ih bs cs hab2 hbc2)

instance : IsTotal String strLe := ⟨fun a b => charsLe_total a.data b.data⟩
instance : IsTrans String strLe := ⟨fun a b c => charsLe_trans a.data b.data c.data⟩

-- ### the sheet model

abbrev Row := List String
abbrev Sheet := List Row

def HEADERS : Row :=
  [("Parchment ID"), ("Original Filename"), ("Captured Date"), ("Sync Date"),
   ("Creator"), ("Camera"), ("Location"), ("Image Preview"), ("QR Preview")]

def lastIdxGo : List String → Nat → String → Option Nat
  | [], _, _ => none
  | c :: rest, i, n =>
    match lastIdxGo rest (i + 1) n with
    | some j => some j
    | none => if c == n then some i else none

def lastIdx (r : Row) (n : String) : Option Nat := lastIdxGo r 0 n

def extendHeader (ch : Row) : Row :=
  HEADERS.foldl (fun acc h => if acc.contains h then acc else acc ++ [h]) ch

def setPad (r : Row) (i : Nat) (v : String) : Row :=
  (r ++ List.replicate (i + 1 - r.length) ("")).set i v

def imgFormula : Option String → String
  | o =>
    if truthy o then
      ("=IMAGE(\"https://drive.google.com/uc?id=") ++ o.getD ("") ++ ("\")")
    else ("")

def mkRowData (now q : String) (it : Entry) : List (String × String) :=
  [ (("Parchment ID"), q),
    (("Original Filename"), it.filename.getD ("Unknown")),
    (("Captured Date"), it.timestamp.getD ("Unknown")),
    (("Sync Date"), now),
    (("Creator"), it.creator.getD ("Unknown")),
    (("Camera"), it.camera.getD ("Unknown")),
    (("Location"), it.location.getD ("Unknown")),
    (("Image Preview"), imgFormula it.drive_thumb_id),
    (("QR Preview"), imgFormula it.drive_qr_id) ]

def existingIdxGo : Sheet → Nat → Nat → String → Option Nat
  | [], _, _, _ => none
  | r :: rest, i, idCol, q =>
    match existingIdxGo rest (i + 1) idCol q with
    | some j => some j
    | none =>
      if idCol < r.length ∧ r.getD idCol ("") == q then some i else none

def existingIdx (rows : Sheet) (idCol : Nat) (q : String) : Option Nat :=
  existingIdxGo rows 0 idCol q

def updateRow (header0 : Row) (r : Row) (data : List (String × String)) : Row :=
  data.foldl (fun r p =>
    match lastIdx header0 p.1 with
    | some tc => setPad r tc p.2
    | none => r) r

def newRow (header0 : Row) (len0 : Nat) (data : List (String × String)) : Row :=
  data.foldl (fun r p =>
    match lastIdx header0 p.1 with
    | some tc => r.set tc p.2
    | none => r) (List.replicate len0 (("")))

def gsStep (header0 : Row) (existing : String → Option Nat)
    (now : String) (m : Mapping) (rows : Sheet) (q : String) : Sheet :=
  match dictGet m q with
  | none => rows
  | some it =>
    match existing q with
    | some i => rows.set i (updateRow header0 (rows.getD i []) (mkRowData now q it))
    | none => rows ++ [newRow header0 (rows.headD []).length (mkRowData now q it)]

def keysOf (m : Mapping) : List String := m.map (fun p => p.1)

def sortedKeys (m : Mapping) : List String := List.insertionSort strLe (keysOf m)

def rowKey (idCol : Nat) (r : Row) : String := r.getD idCol ("")

def rowLe (idCol : Nat) (x y : Row) : Prop := strLe (rowKey idCol x) (rowKey idCol y)

instance (idCol : Nat) : DecidableRel (rowLe idCol) :=
  fun x y => inferInstanceAs (Decidable (strLe (rowKey idCol x) (rowKey idCol y)))

instance (idCol : Nat) : IsTotal Row (rowLe idCol) :=
  ⟨fun a b => charsLe_total (rowKey idCol a).data (rowKey idCol b).data⟩

instance (idCol : Nat) : IsTrans Row (rowLe idCol) :=
  ⟨fun a b c => charsLe_trans (rowKey idCol a).data (rowKey idCol b).data
    (rowKey idCol c).data⟩

def log_to_gsheet (now : String) (rows0 : Sheet) (m : Mapping) : Sheet :=
  let rows1 : Sheet :=
    match rows0 with
    | [] => [HEADERS]
    | r0 :: rest => extendHeader r0 :: rest
  let header0 := rows1.headD []
  let idCol := (lastIdx header0 ("Parchment ID")).getD 0
  let rowsF := (sortedKeys m).foldl
    (gsStep header0 (existingIdx rows1 idCol) now m) rows1
  if rowsF.tail.all (fun r => decide (idCol < r.length)) then
    rowsF.headD [] :: List.insertionSort (rowLe idCol) rowsF.tail
  else
    match rows0 with
    | [] => [HEADERS]
    | _ => rows0


-- ### helper lemmas on getD / set / append

theorem getD_eq_getElem {α : Type} (l : List α) (i : Nat) (d : α)
    (h : i < l.length) : l.getD i d = l[i] := by
  rw [List.getD_eq_getElem?_getD, List.getElem?_eq_getElem h]
  rfl

theorem getD_set_ne {α : Type} (l : List α) (i j : Nat) (v d : α)
    (h : j ≠ i) : (l.set i v).getD j d = l.getD j d := by
  by_cases hj : j < l.length
  · rw [getD_eq_getElem _ _ _ (by simpa using hj), getD_eq_getElem _ _ _ hj]
    exact l.getElem_set_ne (fun he => h he.symm) _
  · rw [List.getD_eq_getElem?_getD, List.getD_eq_getElem?_getD,
      List.getElem?_eq_none (by simpa using Nat.le_of_not_lt hj),
      List.getElem?_eq_none (Nat.le_of_not_lt hj)]

theorem getD_set_self {α : Type} (l : List α) (i : Nat) (v d : α)
    (h : i < l.length) : (l.set i v).getD i d = v := by
  rw [getD_eq_getElem _ _ _ (by simpa using h)]
  exact l.getElem_set_self ..

theorem getD_append_left {α : Type} (l l2 : List α) (j : Nat) (d : α)
    (h : j < l.length) : (l ++ l2).getD j d = l.getD j d := by
  rw [getD_eq_getElem _ _ _ (by simp; omega), getD_eq_getElem _ _ _ h]
  exact List.getElem_append_left _

theorem getD_append_self {α : Type} (l : List α) (x d : α) :
    (l ++ [x]).getD l.length d = x := by
  rw [getD_eq_getElem _ _ _ (by simp)]
  rw [List.getElem_append_right (Nat.le_refl _)]
  simp

theorem headD_eq_getD {α : Type} (l : List α) (d : α) :
    l.headD d = l.getD 0 d := by
  cases l with
  | nil => rfl
  | cons a t => rfl

-- ### setPad / setSeq

theorem setPad_length (r : Row) (i : Nat) (v : String) :
    (setPad r i v).length = max r.length (i + 1) := by
  simp [setPad]
  omega

theorem setPad_getD_self (r : Row) (i : Nat) (v d : String) :
    (setPad r i v).getD i d = v := by
  unfold setPad
  exact getD_set_self _ _ _ _ (by simp; omega)

theorem setPad_getD_ne (r : Row) (i j : Nat) (v d : String)
    (hne : j ≠ i) (hj : j < r.length) :
    (setPad r i v).getD j d = r.getD j d := by
  unfold setPad
  rw [getD_set_ne _ _ _ _ _ hne]
  exact getD_append_left _ _ _ _ hj

def setSeq (r : Row) : Nat → List String → Row
  | _, [] => r
  | i, v :: vs => setSeq (setPad r i v) (i + 1) vs

theorem setSeq_length_ge : ∀ (vs : List String) (r : Row) (i : Nat),
    r.length ≤ (setSeq r i vs).length := by
  intro vs
  induction vs with
  | nil => intro r i; exact Nat.le_refl _
  | cons v vs ih =>
    intro r i
    calc r.length ≤ (setPad r i v).length := by rw [setPad_length]; omega
    _ ≤ _ := ih (setPad r i v) (i + 1)

theorem setSeq_getD_of_lt : ∀ (vs : List String) (r : Row) (i j : Nat)
    (d : String), j < i → j < r.length →
    (setSeq r i vs).getD j d = r.getD j d := by
  intro vs
  induction vs with
  | nil => intro r i j d _ _; rfl
  | cons v vs ih =>
    intro r i j d hji hjr
    show (setSeq (setPad r i v) (i + 1) vs).getD j d = r.getD j d
    rw [ih (setPad r i v) (i + 1) j d (by omega)
      (by rw [setPad_length]; omega)]
    exact setPad_getD_ne r i j v d (by omega) hjr

theorem setSeq_getD_head (vs : List String) (r : Row) (i : Nat) (v d : String) :
    (setSeq r i (v :: vs)).getD i d = v := by
  show (setSeq (setPad r i v) (i + 1) vs).getD i d = v
  rw [setSeq_getD_of_lt vs (setPad r i v) (i + 1) i d (by omega)
    (by rw [setPad_length]; omega)]
  exact setPad_getD_self r i v d

def rowVals (now q : String) (it : Entry) : Row :=
  [q, it.filename.getD ("Unknown"), it.timestamp.getD ("Unknown"), now,
   it.creator.getD ("Unknown"), it.camera.getD ("Unknown"),
   it.location.getD ("Unknown"), imgFormula it.drive_thumb_id,
   imgFormula it.drive_qr_id]

theorem lastIdx_c0 : lastIdx HEADERS ("Parchment ID") = some 0 := by decide
theorem lastIdx_c1 : lastIdx HEADERS ("Original Filename") = some 1 := by decide
theorem lastIdx_c2 : lastIdx HEADERS ("Captured Date") = some 2 := by decide
theorem lastIdx_c3 : lastIdx HEADERS ("Sync Date") = some 3 := by decide
theorem lastIdx_c4 : lastIdx HEADERS ("Creator") = some 4 := by decide
theorem lastIdx_c5 : lastIdx HEADERS ("Camera") = some 5 := by decide
theorem lastIdx_c6 : lastIdx HEADERS ("Location") = some 6 := by decide
theorem lastIdx_c7 : lastIdx HEADERS ("Image Preview") = some 7 := by decide
theorem lastIdx_c8 : lastIdx HEADERS ("QR Preview") = some 8 := by decide

theorem updateRow_eq_setSeq (r : Row) (now q : String) (it : Entry) :
    updateRow HEADERS r (mkRowData now q it) = setSeq r 0 (rowVals now q it) := by
  unfold updateRow mkRowData
  simp only [List.foldl]
  rw [lastIdx_c0, lastIdx_c1, lastIdx_c2, lastIdx_c3, lastIdx_c4, lastIdx_c5,
    lastIdx_c6, lastIdx_c7, lastIdx_c8]
  simp only [setSeq, rowVals]

theorem newRow_eq (now q : String) (it : Entry) :
    newRow HEADERS 9 (mkRowData now q it) = rowVals now q it := by
  unfold newRow mkRowData
  simp only [List.foldl]
  rw [lastIdx_c0, lastIdx_c1, lastIdx_c2, lastIdx_c3, lastIdx_c4, lastIdx_c5,
    lastIdx_c6, lastIdx_c7, lastIdx_c8]
  rfl

theorem updateRow_getD_zero (r : Row) (now q : String) (it : Entry) :
    (updateRow HEADERS r (mkRowData now q it)).getD 0 ("") = q := by
  rw [updateRow_eq_setSeq]
  exact setSeq_getD_head _ r 0 q ("")

theorem updateRow_len_pos (r : Row) (now q : String) (it : Entry) :
    0 < (updateRow HEADERS r (mkRowData now q it)).length := by
  rw [updateRow_eq_setSeq]
  simp only [rowVals, setSeq]
  rw [setPad_length]
  omega

theorem dictGet_some_of_mem_keys (m : Mapping) (q : String)
    (h : q ∈ keysOf m) : ∃ it, dictGet m q = some it := by
  induction m with
  | nil => cases h
  | cons p rest ih =>
    by_cases hp : p.1 == q
    · exact ⟨p.2, by unfold dictGet; rw [if_pos hp]⟩
    · have : q ∈ keysOf rest := by
        rcases List.mem_cons.mp h with h1 | h1
        · exact absurd (by simp [h1]) hp
        · exact h1
      obtain ⟨it, hit⟩ := ih this
      exact ⟨it, by unfold dictGet; rw [if_neg (by simpa using hp)]; exact hit⟩

theorem existingIdxGo_spec : ∀ (rows : Sheet) (base idCol : Nat) (q : String)
    (j : Nat), existingIdxGo rows base idCol q = some j →
    base ≤ j ∧ j - base < rows.length ∧
    idCol < (rows.getD (j - base) []).length ∧
    (rows.getD (j - base) []).getD idCol ("") = q := by
  intro rows
  induction rows with
  | nil => intro base idCol q j h; cases h
  | cons r rest ih =>
    intro base idCol q j h
    unfold existingIdxGo at h
    cases hgo : existingIdxGo rest (base + 1) idCol q with
    | some j2 =>
      rw [hgo] at h
      cases h
      obtain ⟨h1, h2, h3, h4⟩ := ih (base + 1) idCol q j hgo
      have hj : j - base = (j - (base + 1)) + 1 := by omega
      refine ⟨by omega, by simp; omega, ?_, ?_⟩
      · rw [hj, List.getD_cons_succ]; exact h3
      · rw [hj, List.getD_cons_succ]; exact h4
    | none =>
      rw [hgo] at h
      by_cases hc : idCol < r.length ∧ r.getD idCol ("") == q
      · rw [if_pos hc] at h
        cases h
        refine ⟨Nat.le_refl _, by simp, ?_, ?_⟩
        · rw [Nat.sub_self, List.getD_cons_zero]; exact hc.1
        · rw [Nat.sub_self, List.getD_cons_zero]; exact eq_of_beq hc.2
      · rw [if_neg hc] at h
        cases h

theorem existingIdx_spec (rows : Sheet) (idCol : Nat) (q : String) (j : Nat)
    (h : existingIdx rows idCol q = some j) :
    j < rows.length ∧ idCol < (rows.getD j []).length ∧
    (rows.getD j []).getD idCol ("") = q := by
  obtain ⟨_, h2, h3, h4⟩ := existingIdxGo_spec rows 0 idCol q j h
  rw [Nat.sub_zero] at h2 h3 h4
  exact ⟨h2, h3, h4⟩

def gsFoldF (now : String) (m : Mapping) (data0 : List Row)
    (ks : List String) (rows : Sheet) : Sheet :=
  ks.foldl (gsStep HEADERS (existingIdx (HEADERS :: data0) 0) now m) rows

theorem gsFold_inv (now : String) (m : Mapping) (data0 : List Row)
    (hq : ("Parchment ID") ∉ keysOf m) :
    ∀ (ks : List String) (rows : Sheet),
      (∀ q ∈ ks, q ∈ keysOf m) → ks.Nodup →
      (HEADERS :: data0).length ≤ rows.length →
      rows.getD 0 [] = HEADERS →
      (∀ i, 1 ≤ i → i < rows.length → 0 < (rows.getD i []).length) →
      rows.length ≤ (gsFoldF now m data0 ks rows).length ∧
      (∀ i, i < rows.length →
        (i < (HEADERS :: data0).length →
          ((HEADERS :: data0).getD i []).getD 0 ("") ∉ ks) →
        (gsFoldF now m data0 ks rows).getD i [] = rows.getD i []) ∧
      (∀ i, 1 ≤ i → i < (gsFoldF now m data0 ks rows).length →
        0 < ((gsFoldF now m data0 ks rows).getD i []).length) ∧
      (∀ q ∈ ks, ∃ i, 1 ≤ i ∧ i < (gsFoldF now m data0 ks rows).length ∧
        ((gsFoldF now m data0 ks rows).getD i []).getD 0 ("") = q) := by
  intro ks
  induction ks with
  | nil =>
    intro rows _ _ hL hhead hpos
    exact ⟨Nat.le_refl _, fun i _ _ => rfl, hpos,
      fun q hqk => absurd hqk (List.not_mem_nil q)⟩
  | cons q rest ih =>
    intro rows hsub hnd hL hhead hpos
    have hR1 : 0 < (HEADERS :: data0).length := by simp
    have hqm : q ∈ keysOf m := hsub q (List.mem_cons_self q rest)
    have hqPID : q ≠ ("Parchment ID") := fun he => hq (he ▸ hqm)
    have hqnr : q ∉ rest := (List.nodup_cons.mp hnd).1
    have hndr : rest.Nodup := (List.nodup_cons.mp hnd).2
    have hsubr : ∀ q2 ∈ rest, q2 ∈ keysOf m :=
      fun q2 h2 => hsub q2 (List.mem_cons_of_mem q h2)
    obtain ⟨it, hit⟩ := dictGet_some_of_mem_keys m q hqm
    have hstep : gsFoldF now m data0 (q :: rest) rows =
        gsFoldF now m data0 rest
          (gsStep HEADERS (existingIdx (HEADERS :: data0) 0) now m rows q) := rfl
    cases hex : existingIdx (HEADERS :: data0) 0 q with
    | some j =>
      obtain ⟨hjlen, hjpos, hjcell⟩ :=
        existingIdx_spec (HEADERS :: data0) 0 q j hex
      have hj0 : j ≠ 0 := by
        intro he
        subst he
        rw [List.getD_cons_zero] at hjcell
        have hpid : (HEADERS : Row).getD 0 ("") = ("Parchment ID") := rfl
        rw [hpid] at hjcell
        exact hqPID hjcell.symm
      have hjr : j < rows.length := lt_of_lt_of_le hjlen hL
      have hrows' : gsStep HEADERS (existingIdx (HEADERS :: data0) 0) now m
          rows q =
          rows.set j (updateRow HEADERS (rows.getD j []) (mkRowData now q it)) := by
        unfold gsStep
        rw [hit, hex]
      rw [hstep, hrows']
      have hL' : (HEADERS :: data0).length ≤
          (rows.set j (updateRow HEADERS (rows.getD j [])
            (mkRowData now q it))).length := by
        rw [List.length_set]; exact hL
      have hhead' : (rows.set j (updateRow HEADERS (rows.getD j [])
          (mkRowData now q it))).getD 0 [] = HEADERS := by
        rw [getD_set_ne _ _ _ _ _ (Ne.symm hj0)]; exact hhead
      have hpos' : ∀ i, 1 ≤ i →
          i < (rows.set j (updateRow HEADERS (rows.getD j [])
            (mkRowData now q it))).length →
          0 < ((rows.set j (updateRow HEADERS (rows.getD j [])
            (mkRowData now q it))).getD i []).length := by
        intro i h1 h2
        rw [List.length_set] at h2
        by_cases hij : i = j
        · subst hij
          rw [getD_set_self _ _ _ _ hjr]
          exact updateRow_len_pos _ now q it
        · rw [getD_set_ne _ _ _ _ _ hij]
          exact hpos i h1 h2
      obtain ⟨ih1, ih2, ih3, ih4⟩ :=
        ih (rows.set j (updateRow HEADERS (rows.getD j [])
          (mkRowData now q it))) hsubr hndr hL' hhead' hpos'
      refine ⟨?_, ?_, ih3, ?_⟩
      · rw [List.length_set] at ih1
        exact ih1
      · intro i hi hcond
        have hij : i ≠ j := by
          by_cases hiR : i < (HEADERS :: data0).length
          · intro he
            subst he
            exact (hcond hiR) (by rw [hjcell]; exact List.mem_cons_self q rest)
          · intro he
            have := Nat.le_of_not_lt hiR
            omega
        rw [ih2 i (by rw [List.length_set]; exact hi)
          (fun hiR hin => hcond hiR (List.mem_cons_of_mem q hin))]
        exact getD_set_ne rows j i _ [] hij
      · intro q2 hq2
        rcases List.mem_cons.mp hq2 with rfl | hin
        · refine ⟨j, Nat.one_le_iff_ne_zero.mpr hj0, ?_, ?_⟩
          · exact lt_of_lt_of_le (by rw [List.length_set]; exact hjr) ih1
          · rw [ih2 j (by rw [List.length_set]; exact hjr)
              (fun _ hin => hqnr (by rw [hjcell] at hin; exact hin))]
            rw [getD_set_self rows j _ [] hjr]
            exact updateRow_getD_zero (rows.getD j []) now q2 it
        · exact ih4 q2 hin
    | none =>
      have hrows' : gsStep HEADERS (existingIdx (HEADERS :: data0) 0) now m
          rows q = rows ++ [rowVals now q it] := by
        unfold gsStep
        rw [hit, hex]
        dsimp only
        rw [headD_eq_getD, hhead]
        have h9 : (HEADERS : Row).length = 9 := rfl
        rw [h9, newRow_eq]
      rw [hstep, hrows']
      have hr0 : 0 < rows.length := lt_of_lt_of_le hR1 hL
      have hL' : (HEADERS :: data0).length ≤ (rows ++ [rowVals now q it]).length := by
        rw [List.length_append]
        omega
      have hhead' : (rows ++ [rowVals now q it]).getD 0 [] = HEADERS := by
        rw [getD_append_left _ _ _ _ hr0]; exact hhead
      have hpos' : ∀ i, 1 ≤ i → i < (rows ++ [rowVals now q it]).length →
          0 < ((rows ++ [rowVals now q it]).getD i []).length := by
        intro i h1 h2
        rw [List.length_append, List.length_singleton] at h2
        by_cases hi : i < rows.length
        · rw [getD_append_left _ _ _ _ hi]
          exact hpos i h1 hi
        · have hieq : i = rows.length := by omega
          subst hieq
          rw [getD_append_self]
          simp [rowVals]
      obtain ⟨ih1, ih2, ih3, ih4⟩ :=
        ih (rows ++ [rowVals now q it]) hsubr hndr hL' hhead' hpos'
      refine ⟨?_, ?_, ih3, ?_⟩
      · refine le_trans ?_ ih1
        rw [List.length_append]
        omega
      · intro i hi hcond
        rw [ih2 i (by rw [List.length_append]; omega)
          (fun hiR hin => hcond hiR (List.mem_cons_of_mem q hin))]
        exact getD_append_left _ _ _ _ hi
      · intro q2 hq2
        rcases List.mem_cons.mp hq2 with rfl | hin
        · refine ⟨rows.length, by omega, ?_, ?_⟩
          · refine lt_of_lt_of_le ?_ ih1
            rw [List.length_append, List.length_singleton]
            omega
          · rw [ih2 rows.length (by rw [List.length_append]; simp)
              (fun hiR => absurd hiR (Nat.not_lt.mpr hL))]
            rw [getD_append_self]
            rfl
        · exact ih4 q2 hin

def logFinish (rows0 : Sheet) (idCol : Nat) (rowsF : Sheet) : Sheet :=
  if rowsF.tail.all (fun r => decide (idCol < r.length)) then
    rowsF.headD [] :: List.insertionSort (rowLe idCol) rowsF.tail
  else
    match rows0 with
    | [] => [HEADERS]
    | _ => rows0

theorem log_eq (now : String) (data0 : List Row) (m : Mapping) :
    log_to_gsheet now (HEADERS :: data0) m =
      logFinish (HEADERS :: data0) 0
        (gsFoldF now m data0 (sortedKeys m) (HEADERS :: data0)) := by
  unfold log_to_gsheet gsFoldF
  dsimp only [List.headD]
  have hext : extendHeader HEADERS = HEADERS := by decide
  rw [hext, lastIdx_c0]
  rfl

theorem C8_helper_pos (data0 : List Row) (hlen : ∀ r ∈ data0, 0 < r.length) :
    ∀ i, 1 ≤ i → i < (HEADERS :: data0).length →
      0 < ((HEADERS :: data0).getD i []).length := by
  intro i h1 h2
  cases i with
  | zero => omega
  | succ k =>
    rw [List.getD_cons_succ]
    have hk : k < data0.length := by simp at h2; omega
    rw [getD_eq_getElem data0 k [] hk]
    exact hlen _ (List.getElem_mem hk)

/-- Claim C8 (amended): for a sheet with the expected header row, data
rows with a non-empty identifier cell, and a store whose keys are unique
and do not collide with the header label: the mirror keeps the header
row, deletes no row (rows whose identifier is not a store key survive
verbatim, and the row count never shrinks), gives every store key a data
row (updated in place or appended), and sorts the data rows by the
identifier cell.  The claim's frame part — that only the changed
field's cell is touched on re-run — is false: every store row's Sync
Date cell is rewritten with the current time (see the counterexample). -/
theorem C8_mirror_update_contract (now : String) (data0 : List Row) (m : Mapping)
    (hlen : ∀ r ∈ data0, 0 < r.length)
    (hnd : (keysOf m).Nodup)
    (hq : ("Parchment ID") ∉ keysOf m) :
    (log_to_gsheet now (HEADERS :: data0) m).headD [] = HEADERS ∧
    (∀ r ∈ data0, r.getD 0 ("") ∉ keysOf m →
      r ∈ (log_to_gsheet now (HEADERS :: data0) m).tail) ∧
    (HEADERS :: data0).length ≤ (log_to_gsheet now (HEADERS :: data0) m).length ∧
    (∀ q ∈ keysOf m, ∃ r ∈ (log_to_gsheet now (HEADERS :: data0) m).tail,
      r.getD 0 ("") = q) ∧
    (log_to_gsheet now (HEADERS :: data0) m).tail.Sorted (rowLe 0) := by
  have hperm := List.perm_insertionSort strLe (keysOf m)
  have hsub : ∀ q2 ∈ sortedKeys m, q2 ∈ keysOf m :=
    fun q2 h => hperm.mem_iff.mp h
  have hndk : (sortedKeys m).Nodup := hperm.nodup_iff.mpr hnd
  obtain ⟨i1, i2, i3, i4⟩ := gsFold_inv now m data0 hq (sortedKeys m)
    (HEADERS :: data0) hsub hndk (Nat.le_refl _) List.getD_cons_zero
    (C8_helper_pos data0 hlen)
  set F := gsFoldF now m data0 (sortedKeys m) (HEADERS :: data0) with hFdef
  have hFlen : 0 < F.length := lt_of_lt_of_le (by simp) i1
  have hFhead : F.getD 0 [] = HEADERS := by
    rw [i2 0 (by simp) (fun _ hin => hq (hsub _ hin))]
    exact List.getD_cons_zero
  have hFne : F ≠ [] := List.ne_nil_of_length_pos hFlen
  have hFcons : F = HEADERS :: F.tail := by
    have h1 : F.head hFne :: F.tail = F := List.head_cons_tail F hFne
    have h2 : F.head hFne = HEADERS := by
      have h3 := hFhead
      rw [← h1] at h3
      rw [List.getD_cons_zero] at h3
      exact h3
    rw [← h2]
    exact h1.symm
  have hshift : ∀ k d, F.getD (k + 1) d = F.tail.getD k d := by
    intro k d
    rw [hFcons, List.getD_cons_succ, List.tail_cons]
  have htlen : F.length = F.tail.length + 1 := by
    rw [hFcons, List.length_cons, List.tail_cons]
  have hall : F.tail.all (fun r => decide (0 < r.length)) = true := by
    rw [List.all_eq_true]
    intro r hr
    obtain ⟨k, hk, hkr⟩ := List.getElem_of_mem hr
    have h3 := i3 (k + 1) (by omega) (by omega)
    rw [hshift, getD_eq_getElem F.tail k [] hk, hkr] at h3
    exact decide_eq_true h3
  have hres : log_to_gsheet now (HEADERS :: data0) m =
      HEADERS :: List.insertionSort (rowLe 0) F.tail := by
    rw [log_eq]
    unfold logFinish
    rw [← hFdef, if_pos hall]
    rw [headD_eq_getD, hFhead]
  have hpermF := List.perm_insertionSort (rowLe 0) F.tail
  rw [hres]
  refine ⟨rfl, ?_, ?_, ?_, ?_⟩
  · intro r hr hrk
    obtain ⟨k, hk, hkr⟩ := List.getElem_of_mem hr
    have hcell : ((HEADERS :: data0).getD (k + 1) []).getD 0 ("") =
        r.getD 0 ("") := by
      rw [List.getD_cons_succ, getD_eq_getElem data0 k [] hk, hkr]
    have h2 := i2 (k + 1) (by simp; omega)
      (fun _ hin => hrk (hsub _ (by rwa [hcell] at hin)))
    rw [hshift] at h2
    rw [List.getD_cons_succ, getD_eq_getElem data0 k [] hk, hkr] at h2
    have hkt : k < F.tail.length := by
      have : k + 1 < F.length := lt_of_lt_of_le (by simp; omega) i1
      omega
    rw [getD_eq_getElem F.tail k [] hkt] at h2
    show r ∈ List.insertionSort (rowLe 0) F.tail
    exact hpermF.mem_iff.mpr (h2 ▸ List.getElem_mem hkt)
  · simp only [List.length_cons] at i1
    simp only [List.length_cons, hpermF.length_eq]
    omega
  · intro q2 hq2
    obtain ⟨i, hi1, hi2, hi3⟩ := i4 q2 (hperm.mem_iff.mpr hq2)
    cases i with
    | zero => omega
    | succ k =>
      have hkt : k < F.tail.length := by omega
      rw [hshift, getD_eq_getElem F.tail k [] hkt] at hi3
      refine ⟨F.tail[k], ?_, hi3⟩
      show _ ∈ List.insertionSort (rowLe 0) F.tail
      exact hpermF.mem_iff.mpr (List.getElem_mem hkt)
  · show (List.insertionSort (rowLe 0) F.tail).Sorted (rowLe 0)
    exact List.sorted_insertionSort (rowLe 0) F.tail

def m1C8 : Mapping :=
  [(("PD-A"), { camera := some ("CamX") }), (("PD-B"), { camera := some ("CamZ") })]

def m2C8 : Mapping :=
  [(("PD-A"), { camera := some ("CamY") }), (("PD-B"), { camera := some ("CamZ") })]

/-- Claim C8 counterexample: the Mapping Store of the second run differs
from the first only in PD-A's camera field, yet PD-B's row changes too —
its Sync Date cell (column 3) is rewritten from the first run's
timestamp to the second run's, because `log_to_gsheet` stamps
`datetime.now()` into every store entry's row on every run. -/
theorem C8_sync_date_rewrites_other_rows :
    dictGet m1C8 ("PD-B") = dictGet m2C8 ("PD-B") ∧
    ((log_to_gsheet ("2024-01-01 10:00") [] m1C8).getD 2 []).getD 0 ("") =
      ("PD-B") ∧
    ((log_to_gsheet ("2024-01-01 10:00") [] m1C8).getD 2 []).getD 3 ("") =
      ("2024-01-01 10:00") ∧
    ((log_to_gsheet ("2024-01-02 11:00")
        (log_to_gsheet ("2024-01-01 10:00") [] m1C8) m2C8).getD 2 []).getD 0
      ("") = ("PD-B") ∧
    ((log_to_gsheet ("2024-01-02 11:00")
        (log_to_gsheet ("2024-01-01 10:00") [] m1C8) m2C8).getD 2 []).getD 3
      ("") = ("2024-01-02 11:00") :=
  ⟨rfl, rfl, rfl, rfl, rfl⟩

/-- Witness for the amended C8 at a one-row sheet and a one-entry
store. -/
theorem C8_mirror_update_contract_witness :
    (log_to_gsheet ("2024-06-01 10:00") (HEADERS :: [[("PD-A"), ("a.jpg")]])
      [(("PD-B"), {})]).headD [] = HEADERS ∧
    (∀ r ∈ [[("PD-A"), ("a.jpg")]], r.getD 0 ("") ∉ keysOf [(("PD-B"), {})] →
      r ∈ (log_to_gsheet ("2024-06-01 10:00")
        (HEADERS :: [[("PD-A"), ("a.jpg")]]) [(("PD-B"), {})]).tail) ∧
    (HEADERS :: [[("PD-A"), ("a.jpg")]]).length ≤
      (log_to_gsheet ("2024-06-01 10:00") (HEADERS :: [[("PD-A"), ("a.jpg")]])
        [(("PD-B"), {})]).length ∧
    (∀ q ∈ keysOf [(("PD-B"), {})],
      ∃ r ∈ (log_to_gsheet ("2024-06-01 10:00")
        (HEADERS :: [[("PD-A"), ("a.jpg")]]) [(("PD-B"), {})]).tail,
      r.getD 0 ("") = q) ∧
    (log_to_gsheet ("2024-06-01 10:00") (HEADERS :: [[("PD-A"), ("a.jpg")]])
      [(("PD-B"), {})]).tail.Sorted (rowLe 0) :=
  C8_mirror_update_contract ("2024-06-01 10:00") [[("PD-A"), ("a.jpg")]] [(("PD-B"), {})]
    (by decide) (by decide) (by decide)
